import Mathlib

/-!
Shallow embedding of the runtime-truth pipeline of `claw-control-room`:

* `scripts/lib/runtime_events.py` (event vocabulary, normalization, sort key)
* `scripts/runtime/materialize_runtime_state.py` (journal reducer, revision counter)
* `scripts/runtime/collect_runtime_events.py` (journal append, timestamp parsing)
* `scripts/lib/status_builder.py` (timestamp parsing, payload sanitization)
* `scripts/lib/runtime_reconciler.py` (live reconciliation pass)

Modelling conventions, applied uniformly:

* Python values that the code guards with `isinstance` checks are embedded as
  `Option` types: `none` stands for a missing key, `None`, or a value of the
  wrong dynamic type, which the guarded code treats identically.
* Python `a or b` (truthiness coalescing on strings, where both `None` and
  `""` are falsy) is embedded as `pyOr`; on ints (where `0` is falsy) as
  `intOr`.
* Python dicts (which preserve insertion order, replace in place on key
  collision, and compare ignoring order) are embedded as association lists
  with `dictGet` / `dictInsert` / `dictErase` mirroring those semantics.
* `sorted` / `list.sort` with a key function are embedded as `pySorted`, a
  stable ascending sort over the same lexicographic key; a stable ascending
  sort is unique, so it computes the same list as Python's stable sort.
-/

/-! ## Ordering framework: Python comparisons and stable sorting -/

/-- A computable strict total order, packaged with the laws needed to reason
about Python's tuple comparison and stable sorting. -/
structure StrictLt (α : Type) where
  lt : α → α → Bool
  irrefl : ∀ a, lt a a = false
  asymm : ∀ a b, lt a b = true → lt b a = false
  lt_trans : ∀ a b c, lt a b = true → lt b c = true → lt a c = true
  conn : ∀ a b, lt a b = false → lt b a = false → a = b

/-- Python `a <= b`, definable from `<` as `not (b < a)` for total orders. -/
def StrictLt.le {α : Type} (S : StrictLt α) (a b : α) : Bool := !(S.lt b a)

theorem StrictLt.le_total {α : Type} (S : StrictLt α) (a b : α) :
    S.le a b = true ∨ S.le b a = true := by
  by_cases h : S.lt b a = true
  · exact Or.inr (by simp [StrictLt.le, S.asymm _ _ h])
  · exact Or.inl (by simp [StrictLt.le] at h ⊢; simpa using h)

theorem StrictLt.le_trans {α : Type} (S : StrictLt α) (a b c : α)
    (h₁ : S.le a b = true) (h₂ : S.le b c = true) : S.le a c = true := by
  simp only [StrictLt.le, Bool.not_eq_true'] at h₁ h₂ ⊢
  by_cases h : S.lt c a = true
  · exfalso
    by_cases hbc : S.lt b c = true
    · have : S.lt b a = true := S.lt_trans b c a hbc h
      simp [h₁] at this
    · have hbc' : S.lt b c = false := by simpa using hbc
      have : b = c := S.conn b c hbc' h₂
      subst this
      simp [h₁] at h
  · simpa using h

theorem StrictLt.le_antisymm {α : Type} (S : StrictLt α) (a b : α)
    (h₁ : S.le a b = true) (h₂ : S.le b a = true) : a = b := by
  simp only [StrictLt.le, Bool.not_eq_true'] at h₁ h₂
  exact S.conn a b h₂ h₁

theorem StrictLt.le_refl {α : Type} (S : StrictLt α) (a : α) :
    S.le a a = true := by simp [StrictLt.le, S.irrefl]

/-- Strict order on `Nat`. -/
def natLt : StrictLt Nat where
  lt a b := decide (a < b)
  irrefl a := by simp
  asymm a b h := by simp at h ⊢; omega
  lt_trans a b c h₁ h₂ := by simp at h₁ h₂ ⊢; omega
  conn a b h₁ h₂ := by simp at h₁ h₂; omega

/-- Strict order on `Int`. -/
def intLt : StrictLt Int where
  lt a b := decide (a < b)
  irrefl a := by simp
  asymm a b h := by simp at h ⊢; omega
  lt_trans a b c h₁ h₂ := by simp at h₁ h₂ ⊢; omega
  conn a b h₁ h₂ := by simp at h₁ h₂; omega

/-- Python string `<`: lexicographic comparison of code points. -/
def charListLtB : List Char → List Char → Bool
  | [], [] => false
  | [], _ :: _ => true
  | _ :: _, [] => false
  | a :: as, b :: bs =>
    if a.toNat < b.toNat then true
    else if b.toNat < a.toNat then false
    else charListLtB as bs

theorem charListLtB_irrefl (l : List Char) : charListLtB l l = false := by
  induction l with
  | nil => rfl
  | cons a l ih => simp [charListLtB, ih]

theorem charListLtB_asymm (l₁ l₂ : List Char) (h : charListLtB l₁ l₂ = true) :
    charListLtB l₂ l₁ = false := by
  induction l₁ generalizing l₂ with
  | nil =>
    cases l₂ with
    | nil => simpa [charListLtB] using h
    | cons b bs => simp [charListLtB]
  | cons a as ih =>
    cases l₂ with
    | nil => simp [charListLtB] at h
    | cons b bs =>
      by_cases hab : a.toNat < b.toNat
      · have : ¬ b.toNat < a.toNat := by omega
        simp [charListLtB, hab, this]
      · by_cases hba : b.toNat < a.toNat
        · simp [charListLtB, hab, hba] at h
        · simp only [charListLtB, if_neg hab, if_neg hba] at h
          simp [charListLtB, hab, hba, ih bs h]

theorem charListLtB_trans (l₁ l₂ l₃ : List Char)
    (h₁ : charListLtB l₁ l₂ = true) (h₂ : charListLtB l₂ l₃ = true) :
    charListLtB l₁ l₃ = true := by
  induction l₁ generalizing l₂ l₃ with
  | nil =>
    cases l₂ with
    | nil => simp [charListLtB] at h₁
    | cons b bs =>
      cases l₃ with
      | nil => simp [charListLtB] at h₂
      | cons c cs => simp [charListLtB]
  | cons a as ih =>
    cases l₂ with
    | nil => simp [charListLtB] at h₁
    | cons b bs =>
      cases l₃ with
      | nil => simp [charListLtB] at h₂
      | cons c cs =>
        by_cases hab : a.toNat < b.toNat
        · by_cases hbc : b.toNat < c.toNat
          · have : a.toNat < c.toNat := by omega
            simp [charListLtB, this]
          · by_cases hcb : c.toNat < b.toNat
            · simp [charListLtB, hbc, hcb] at h₂
            · have : a.toNat < c.toNat := by omega
              simp [charListLtB, this]
        · by_cases hba : b.toNat < a.toNat
          · simp [charListLtB, hab, hba] at h₁
          · by_cases hbc : b.toNat < c.toNat
            · have : a.toNat < c.toNat := by omega
              simp [charListLtB, this]
            · by_cases hcb : c.toNat < b.toNat
              · simp [charListLtB, hbc, hcb] at h₂
              · simp only [charListLtB, if_neg hab, if_neg hba] at h₁
                simp only [charListLtB, if_neg hbc, if_neg hcb] at h₂
                have hac : ¬ a.toNat < c.toNat := by omega
                have hca : ¬ c.toNat < a.toNat := by omega
                simp [charListLtB, hac, hca, ih bs cs h₁ h₂]

theorem charListLtB_conn (l₁ l₂ : List Char)
    (h₁ : charListLtB l₁ l₂ = false) (h₂ : charListLtB l₂ l₁ = false) :
    l₁ = l₂ := by
  induction l₁ generalizing l₂ with
  | nil =>
    cases l₂ with
    | nil => rfl
    | cons b bs => simp [charListLtB] at h₁
  | cons a as ih =>
    cases l₂ with
    | nil => simp [charListLtB] at h₂
    | cons b bs =>
      by_cases hab : a.toNat < b.toNat
      · simp [charListLtB, hab] at h₁
      · by_cases hba : b.toNat < a.toNat
        · simp [charListLtB, hba, hab] at h₂
        · have heq : a.toNat = b.toNat := by omega
          have hc : a = b := Char.eq_of_val_eq (UInt32.toNat.inj heq)
          simp only [charListLtB, if_neg hab, if_neg hba] at h₁
          simp only [charListLtB, if_neg hba, if_neg hab] at h₂
          rw [hc, ih bs h₁ h₂]

/-- Python `<` on strings (code-point lexicographic). -/
def strLt : StrictLt String where
  lt a b := charListLtB a.data b.data
  irrefl a := charListLtB_irrefl a.data
  asymm a b h := charListLtB_asymm _ _ h
  lt_trans a b c h₁ h₂ := charListLtB_trans _ _ _ h₁ h₂
  conn a b h₁ h₂ := by
    have h := charListLtB_conn _ _ h₁ h₂
    cases a
    cases b
    exact congrArg String.mk h

/-- Python tuple comparison: lexicographic on pairs. -/
def prodLt {α β : Type} [DecidableEq α] (SA : StrictLt α) (SB : StrictLt β) :
    StrictLt (α × β) where
  lt a b := SA.lt a.1 b.1 || (decide (a.1 = b.1) && SB.lt a.2 b.2)
  irrefl a := by simp [SA.irrefl, SB.irrefl]
  asymm a b h := by
    rcases a with ⟨a1, a2⟩
    rcases b with ⟨b1, b2⟩
    simp only [Bool.or_eq_true, Bool.and_eq_true, decide_eq_true_eq] at h
    rcases h with h | ⟨heq, h⟩
    · have h1 := SA.asymm _ _ h
      have h2 : ¬ b1 = a1 := by
        intro hc
        subst hc
        simp [SA.irrefl] at h
      simp [h1, h2]
    · subst heq
      simp [SA.irrefl, SB.asymm _ _ h]
  lt_trans a b c h₁ h₂ := by
    rcases a with ⟨a1, a2⟩
    rcases b with ⟨b1, b2⟩
    rcases c with ⟨c1, c2⟩
    simp only [Bool.or_eq_true, Bool.and_eq_true, decide_eq_true_eq] at h₁ h₂ ⊢
    rcases h₁ with h₁ | ⟨heq₁, h₁⟩
    · rcases h₂ with h₂ | ⟨heq₂, h₂⟩
      · exact Or.inl (SA.lt_trans _ _ _ h₁ h₂)
      · subst heq₂
        exact Or.inl h₁
    · subst heq₁
      rcases h₂ with h₂ | ⟨heq₂, h₂⟩
      · exact Or.inl h₂
      · subst heq₂
        exact Or.inr ⟨rfl, SB.lt_trans _ _ _ h₁ h₂⟩
  conn a b h₁ h₂ := by
    rcases a with ⟨a1, a2⟩
    rcases b with ⟨b1, b2⟩
    simp only [Bool.or_eq_false_iff, Bool.and_eq_false_iff,
      decide_eq_false_iff_not] at h₁ h₂
    obtain ⟨ha, hb⟩ := h₁
    obtain ⟨ha', hb'⟩ := h₂
    have h1 : a1 = b1 := SA.conn _ _ ha ha'
    subst h1
    rcases hb with hb | hb
    · simp at hb
    · rcases hb' with hb' | hb'
      · simp at hb'
      · rw [SB.conn _ _ hb hb']

/-- Stable insertion of `a` into a sorted list: `a` goes before the first
element it is `le` to, hence after all elements already present whose key
compares equal (matching Python's stable `sorted`). -/
def insertSorted {α : Type} (le : α → α → Bool) (a : α) : List α → List α
  | [] => [a]
  | b :: l => if le a b then a :: b :: l else b :: insertSorted le a l

/-- Stable ascending sort, processing from the right so that original order is
preserved among elements whose keys compare equal (as Python's `sorted`). -/
def pySorted {α : Type} (le : α → α → Bool) : List α → List α
  | [] => []
  | a :: l => insertSorted le a (pySorted le l)

theorem insertSorted_perm {α : Type} (le : α → α → Bool) (a : α) (l : List α) :
    List.Perm (insertSorted le a l) (a :: l) := by
  induction l with
  | nil => simp [insertSorted]
  | cons b l ih =>
    by_cases h : le a b
    · simp [insertSorted, h]
    · simp only [insertSorted, if_neg h]
      exact (List.Perm.cons b ih).trans (List.Perm.swap a b l)

theorem pySorted_perm {α : Type} (le : α → α → Bool) (l : List α) :
    List.Perm (pySorted le l) l := by
  induction l with
  | nil => simp [pySorted]
  | cons a l ih =>
    exact (insertSorted_perm le a (pySorted le l)).trans (List.Perm.cons a ih)

theorem insertSorted_pairwise {α : Type} (le : α → α → Bool)
    (total : ∀ x y, le x y = true ∨ le y x = true)
    (htrans : ∀ x y z, le x y = true → le y z = true → le x z = true)
    (a : α) (l : List α) (h : l.Pairwise (fun x y => le x y = true)) :
    (insertSorted le a l).Pairwise (fun x y => le x y = true) := by
  induction l with
  | nil => simp [insertSorted]
  | cons b l ih =>
    rcases List.pairwise_cons.mp h with ⟨hb, hl⟩
    by_cases hab : le a b
    · rw [show insertSorted le a (b :: l) = a :: b :: l by
        simp [insertSorted, hab]]
      refine List.pairwise_cons.mpr ⟨?_, h⟩
      intro x hx
      rcases List.mem_cons.mp hx with rfl | hx
      · exact hab
      · exact htrans _ _ _ hab (hb x hx)
    · have hba : le b a = true := (total a b).resolve_left (by simpa using hab)
      rw [show insertSorted le a (b :: l) = b :: insertSorted le a l by
        simp [insertSorted, hab]]
      refine List.pairwise_cons.mpr ⟨?_, ih hl⟩
      intro x hx
      have := (insertSorted_perm le a l).mem_iff.mp hx
      rcases List.mem_cons.mp this with rfl | hx'
      · exact hba
      · exact hb x hx'

theorem pySorted_pairwise {α : Type} (le : α → α → Bool)
    (total : ∀ x y, le x y = true ∨ le y x = true)
    (htrans : ∀ x y z, le x y = true → le y z = true → le x z = true)
    (l : List α) :
    (pySorted le l).Pairwise (fun x y => le x y = true) := by
  induction l with
  | nil => simp [pySorted]
  | cons a l ih => exact insertSorted_pairwise le total htrans a _ ih

/-- Two permuted lists that are both sorted under the key order, with no two
elements sharing a key, are equal. -/
theorem eq_of_perm_sorted_nodup_keys {α κ : Type} (S : StrictLt κ)
    (key : α → κ) :
    ∀ {l₁ l₂ : List α}, List.Perm l₁ l₂ →
    l₁.Pairwise (fun x y => S.le (key x) (key y) = true) →
    l₂.Pairwise (fun x y => S.le (key x) (key y) = true) →
    (l₁.map key).Nodup → l₁ = l₂ := by
  intro l₁
  induction l₁ with
  | nil =>
    intro l₂ hp _ _ _
    exact (List.Perm.nil_eq hp).symm ▸ rfl
  | cons a t₁ ih =>
    intro l₂ hp hs₁ hs₂ hnd
    cases l₂ with
    | nil => exact absurd hp.symm (by simp)
    | cons b t₂ =>
      rw [List.map_cons] at hnd
      obtain ⟨hnd₁, hnd₂⟩ := List.nodup_cons.mp hnd
      by_cases hab : a = b
      · subst hab
        rcases List.pairwise_cons.mp hs₁ with ⟨_, hs₁'⟩
        rcases List.pairwise_cons.mp hs₂ with ⟨_, hs₂'⟩
        rw [ih (hp.cons_inv) hs₁' hs₂' hnd₂]
      · have hbmem : b ∈ a :: t₁ := hp.symm.subset (List.mem_cons_self b t₂)
        have hamem : a ∈ b :: t₂ := hp.subset (List.mem_cons_self a t₁)
        have hb_t₁ : b ∈ t₁ := by
          rcases List.mem_cons.mp hbmem with h | h
          · exact absurd h.symm hab
          · exact h
        have ha_t₂ : a ∈ t₂ := by
          rcases List.mem_cons.mp hamem with h | h
          · exact absurd h hab
          · exact h
        have h₁ : S.le (key a) (key b) = true :=
          (List.pairwise_cons.mp hs₁).1 b hb_t₁
        have h₂ : S.le (key b) (key a) = true :=
          (List.pairwise_cons.mp hs₂).1 a ha_t₂
        have hkey : key a = key b := S.le_antisymm _ _ h₁ h₂
        exfalso
        have hmem : key a ∈ t₁.map key := hkey ▸ List.mem_map_of_mem key hb_t₁
        exact hnd₁ hmem

/-- Sorting by a key with pairwise-distinct key values is invariant under
permutation of the input. -/
theorem pySorted_eq_of_perm {α κ : Type} (S : StrictLt κ) (key : α → κ)
    {l₁ l₂ : List α} (hp : List.Perm l₁ l₂)
    (hnd : (l₁.map key).Nodup) :
    pySorted (fun x y => S.le (key x) (key y)) l₁
      = pySorted (fun x y => S.le (key x) (key y)) l₂ := by
  set le := fun x y => S.le (key x) (key y) with hle
  have total : ∀ x y, le x y = true ∨ le y x = true := fun x y =>
    S.le_total (key x) (key y)
  have htrans : ∀ x y z, le x y = true → le y z = true → le x z = true :=
    fun x y z => S.le_trans (key x) (key y) (key z)
  have hperm : List.Perm (pySorted le l₁) (pySorted le l₂) :=
    ((pySorted_perm le l₁).trans hp).trans (pySorted_perm le l₂).symm
  have hnd₁ : ((pySorted le l₁).map key).Nodup := by
    have : List.Perm ((pySorted le l₁).map key) (l₁.map key) :=
      (pySorted_perm le l₁).map key
    exact this.nodup_iff.mpr hnd
  exact eq_of_perm_sorted_nodup_keys S key hperm
    (pySorted_pairwise le total htrans l₁)
    (pySorted_pairwise le total htrans l₂) hnd₁

/-! ## Python string and coalescing helpers -/

/-- The whitespace characters removed by Python's `str.strip()` (ASCII
range; the repository's inputs are ASCII). -/
def pyWs (c : Char) : Bool :=
  c = ' ' ∨ c = Char.ofNat 9 ∨ c = Char.ofNat 10 ∨ c = Char.ofNat 13 ∨
    c = Char.ofNat 11 ∨ c = Char.ofNat 12

/-- Python `s.strip()`: drop whitespace from both ends. -/
def pyStrip (s : String) : String :=
  String.mk (((s.data.dropWhile pyWs).reverse.dropWhile pyWs).reverse)

/-- Python `str.lower()` per character (ASCII range). -/
def pyToLower (c : Char) : Char :=
  if 65 ≤ c.toNat ∧ c.toNat ≤ 90 then Char.ofNat (c.toNat + 32) else c

/-- Python `a or b` on string-or-None values: `None` and `""` are falsy. -/
def pyOr (a b : Option String) : Option String :=
  match a with
  | some s => if s = "" then b else some s
  | none => b

/-- Python `str(a or b)` where `a` is string-or-None and `b` a string. -/
def strOr (a : Option String) (b : String) : String :=
  match a with
  | some s => if s = "" then b else s
  | none => b

/-- Python `a or b` on ints: `0` is falsy. -/
def intOr (a b : Int) : Int := if a = 0 then b else a

/-! ## Python dict embedded as an insertion-ordered association list -/

/-- `d.get(k)`: first binding of `k` (bindings are unique in a Python dict). -/
def dictGet {V : Type} (m : List (String × V)) (k : String) : Option V :=
  match m with
  | [] => none
  | (k', v) :: rest => if k' = k then some v else dictGet rest k

/-- `d[k] = v`: replace in place if present, else append (insertion order). -/
def dictInsert {V : Type} (m : List (String × V)) (k : String) (v : V) :
    List (String × V) :=
  match m with
  | [] => [(k, v)]
  | (k', v') :: rest =>
    if k' = k then (k, v) :: rest else (k', v') :: dictInsert rest k v

/-- `d.pop(k, None)`: drop the binding of `k`. -/
def dictErase {V : Type} (m : List (String × V)) (k : String) :
    List (String × V) :=
  match m with
  | [] => []
  | (k', v') :: rest =>
    if k' = k then dictErase rest k else (k', v') :: dictErase rest k

/-- The keys of a dict, in insertion order. -/
def dictKeys {V : Type} (m : List (String × V)) : List String := m.map (·.1)

theorem dictGet_insert_self {V : Type} (m : List (String × V)) (k : String)
    (v : V) : dictGet (dictInsert m k v) k = some v := by
  induction m with
  | nil => simp [dictGet, dictInsert]
  | cons p rest ih =>
    rcases p with ⟨k', v'⟩
    by_cases h : k' = k
    · simp [dictInsert, h, dictGet]
    · simpa [dictInsert, h, dictGet] using ih

theorem dictGet_insert_ne {V : Type} (m : List (String × V)) (k k' : String)
    (v : V) (h : k' ≠ k) : dictGet (dictInsert m k v) k' = dictGet m k' := by
  induction m with
  | nil => simp [dictGet, dictInsert, Ne.symm h]
  | cons p rest ih =>
    rcases p with ⟨kh, vh⟩
    by_cases hp : kh = k
    · subst hp
      simp [dictInsert, dictGet, fun hc : kh = k' => h (hc ▸ rfl), Ne.symm h]
    · by_cases hp' : kh = k'
      · subst hp'
        simp [dictInsert, hp, dictGet]
      · simpa [dictInsert, hp, dictGet, hp'] using ih

theorem dictGet_erase_self {V : Type} (m : List (String × V)) (k : String) :
    dictGet (dictErase m k) k = none := by
  induction m with
  | nil => simp [dictGet, dictErase]
  | cons p rest ih =>
    rcases p with ⟨kh, vh⟩
    by_cases hp : kh = k
    · simpa [dictErase, hp] using ih
    · simpa [dictErase, hp, dictGet] using ih

theorem dictGet_erase_ne {V : Type} (m : List (String × V)) (k k' : String)
    (h : k' ≠ k) : dictGet (dictErase m k) k' = dictGet m k' := by
  induction m with
  | nil => simp [dictGet, dictErase]
  | cons p rest ih =>
    rcases p with ⟨kh, vh⟩
    by_cases hp : kh = k
    · subst hp
      have hp' : ¬ kh = k' := fun hc => h hc.symm
      simpa [dictErase, dictGet, hp'] using ih
    · by_cases hp' : kh = k'
      · subst hp'
        simp [dictErase, hp, dictGet]
      · simpa [dictErase, hp, dictGet, hp'] using ih

theorem mem_dictInsert {V : Type} {m : List (String × V)} {k : String} {v : V}
    {p : String × V} (h : p ∈ dictInsert m k v) : p = (k, v) ∨ p ∈ m := by
  induction m with
  | nil =>
    simp only [dictInsert, List.mem_singleton] at h
    exact Or.inl h
  | cons q rest ih =>
    rcases q with ⟨kh, vh⟩
    by_cases hq : kh = k
    · rw [show dictInsert ((kh, vh) :: rest) k v = (k, v) :: rest by
        simp [dictInsert, hq]] at h
      rcases List.mem_cons.mp h with h1 | h1
      · exact Or.inl h1
      · exact Or.inr (List.mem_cons_of_mem _ h1)
    · rw [show dictInsert ((kh, vh) :: rest) k v
          = (kh, vh) :: dictInsert rest k v by simp [dictInsert, hq]] at h
      rcases List.mem_cons.mp h with h1 | h1
      · exact Or.inr (h1 ▸ List.mem_cons_self _ _)
      · rcases ih h1 with h2 | h2
        · exact Or.inl h2
        · exact Or.inr (List.mem_cons_of_mem _ h2)

theorem dictGet_mem {V : Type} {m : List (String × V)} {k : String} {v : V}
    (h : dictGet m k = some v) : (k, v) ∈ m := by
  induction m with
  | nil => simp [dictGet] at h
  | cons p rest ih =>
    rcases p with ⟨kh, vh⟩
    by_cases hp : kh = k
    · simp only [dictGet, if_pos hp] at h
      subst hp
      obtain rfl : vh = v := by simpa using h
      exact List.mem_cons_self _ _
    · simp only [dictGet, if_neg hp] at h
      exact List.mem_cons_of_mem _ (ih h)

/-! ## `scripts/lib/runtime_events.py` -/

/-- `TERMINAL_EVENT_TYPES` (runtime_events.py). -/
def TERMINAL_EVENT_TYPES : List String :=
  ["finished", "failed", "cancelled", "timed_out", "stale_expired"]

/-- `RUNNING_EVENT_TYPES` (runtime_events.py). -/
def RUNNING_EVENT_TYPES : List String := ["started", "heartbeat"]

/-- Python `value.strip().lower().replace("-", "_").replace(" ", "_")`.
Since both `replace` patterns are single characters, the chained `replace`
calls are a character map; `lower` is also per-character. -/
def pyCanon (s : String) : String :=
  String.mk ((pyStrip s).data.map fun c =>
    let c := pyToLower c
    if c = '-' ∨ c = ' ' then '_' else c)

/-- `normalize_terminal_event_type` (runtime_events.py, lines 29-45).
`none` models a non-string argument. -/
def normalize_terminal_event_type (value : Option String) : String :=
  match value with
  | none => "finished"
  | some v =>
    let normalized := pyCanon v
    if normalized ∈ TERMINAL_EVENT_TYPES then normalized
    else if normalized ∈ ["ok", "success", "succeeded", "complete", "completed", "done"] then "finished"
    else if normalized ∈ ["timeout", "timedout", "timed_out"] then "timed_out"
    else if normalized ∈ ["error", "errored", "failure"] then "failed"
    else if normalized = "canceled" then "cancelled"
    else "finished"

/-- `is_terminal_event_type` (runtime_events.py): `none` models a non-string. -/
def is_terminal_event_type (value : Option String) : Bool :=
  match value with
  | some s => s ∈ TERMINAL_EVENT_TYPES
  | none => false

/-- `source_priority` (runtime_events.py): `SOURCE_PRIORITY.get(source, 50)`,
with 99 for non-strings. -/
def source_priority (source : Option String) : Nat :=
  match source with
  | none => 99
  | some s =>
    if s = "cron-runs" then 0
    else if s = "subagent-registry" then 1
    else if s = "sessions-store" then 2
    else 50

/-- Reducer-relevant slice of the journal-event `payload` dict.  Timestamp
fields are `isinstance(..., int)`-guarded in the reducer, string fields are
coalesced with Python `or`; `none` models a missing key or a value the guard
rejects. -/
structure EvPayload where
  startedAtMs : Option Int
  lastSeenAtMs : Option Int
  jobId : Option String
  jobName : Option String
  sessionId : Option String
  sessionKey : Option String
  summary : Option String
  activityType : Option String
  model : Option String
  thinking : Option String
deriving DecidableEq, Repr

/-- The all-absent payload: models a missing or non-dict `payload` value. -/
def EvPayload.empty : EvPayload :=
  ⟨none, none, none, none, none, none, none, none, none, none⟩

/-- A journal event record (one JSON line).  Fields are `Option`-typed as the
consumers guard them; `sourceOffset`/`eventId` are read through
`str(x or "")` in the sort key, so `none` there models a falsy value. -/
structure Event where
  eventId : Option String
  runKey : Option String
  eventType : Option String
  eventAtMs : Option Int
  source : Option String
  sourceOffset : Option String
  payload : EvPayload
deriving DecidableEq, Repr

/-- `event_sort_key` (runtime_events.py, lines 87-99):
`(eventAtMs, source_priority, str(sourceOffset or ""), str(eventId or ""))`. -/
def event_sort_key (e : Event) : Int × Nat × String × String :=
  (e.eventAtMs.getD 0,
    source_priority e.source,
    e.sourceOffset.getD "",
    e.eventId.getD "")

/-- Python tuple comparison for `event_sort_key` values. -/
def eventKeyLt : StrictLt (Int × Nat × String × String) :=
  prodLt intLt (prodLt natLt (prodLt strLt strLt))

/-- `sort_events` (runtime_events.py): Python's stable `sorted` by
`event_sort_key`. -/
def sort_events (es : List Event) : List Event :=
  pySorted (fun a b => eventKeyLt.le (event_sort_key a) (event_sort_key b)) es

/-- `deterministic_event_id` (runtime_events.py, lines 48-56) builds the hash
material string; `hash` abstracts the external primitive
`hashlib.sha256(material.encode()).hexdigest()`. -/
def deterministic_event_id (hash : String → String) (run_key event_type : String)
    (event_at_ms : Int) (source source_offset : String) : String :=
  hash (run_key ++ "|" ++ event_type ++ "|" ++ toString event_at_ms ++ "|" ++
    source ++ "|" ++ source_offset)

/-- `build_event` (runtime_events.py, lines 59-78): normalization is applied
only when the caller's type is not in `RUNNING_EVENT_TYPES`. -/
def build_event (hash : String → String) (run_key event_type : String)
    (event_at_ms : Int) (source source_offset : String) (payload : EvPayload) :
    Event :=
  let normalized :=
    if event_type ∈ RUNNING_EVENT_TYPES then event_type
    else normalize_terminal_event_type (some event_type)
  { eventId := some (deterministic_event_id hash run_key normalized event_at_ms
      source source_offset)
    runKey := some run_key
    eventType := some normalized
    eventAtMs := some event_at_ms
    source := some source
    sourceOffset := some source_offset
    payload := payload }

/-! ## `scripts/runtime/materialize_runtime_state.py`: the journal reducer -/

/-- The value stored in the reducer's `active` map for one run key
(materialize_runtime_state.py, lines 153-165).  The merge always writes
integer timestamps, so the three timestamp fields are plain `Int`. -/
structure RowState where
  startedAtMs : Int
  lastSeenAtMs : Int
  firstSeenAtMs : Int
  jobId : Option String
  jobName : Option String
  sessionId : Option String
  sessionKey : Option String
  summary : Option String
  activityType : Option String
  model : Option String
  thinking : Option String
deriving DecidableEq, Repr

/-- The value stored in the reducer's `terminals` map:
`{"eventType": ..., "eventAtMs": ...}`. -/
structure TermRec where
  eventType : String
  eventAtMs : Int
deriving DecidableEq, Repr

/-- The reducer's fold state: the `active` and `terminals` dicts. -/
structure RState where
  active : List (String × RowState)
  terminals : List (String × TermRec)
deriving DecidableEq, Repr

/-- One iteration of the reducer's event loop
(materialize_runtime_state.py, lines 111-166). -/
def reduceStep (st : RState) (e : Event) : RState :=
  match e.runKey, e.eventType, e.eventAtMs with
  | some run_key, some event_type, some event_at_ms =>
    if run_key = "" then st
    else if (dictGet st.terminals run_key).isSome then
      -- Absorbing terminal states: never reopen.
      st
    else if event_type ∈ TERMINAL_EVENT_TYPES then
      { active := dictErase st.active run_key
        terminals := dictInsert st.terminals run_key
          ⟨event_type, event_at_ms⟩ }
    else if event_type ∈ RUNNING_EVENT_TYPES then
      let payload := e.payload
      let row := dictGet st.active run_key
      let candidate_start := payload.startedAtMs.getD event_at_ms
      let started_at_ms :=
        match row with
        | some r => min r.startedAtMs candidate_start
        | none => candidate_start
      let candidate_seen := payload.lastSeenAtMs.getD event_at_ms
      let last_seen_at_ms :=
        match row with
        | some r => max r.lastSeenAtMs candidate_seen
        | none => candidate_seen
      let rowOr := fun (f : RowState → Option String) =>
        match row with
        | some r => f r
        | none => none
      let merged : RowState :=
        { startedAtMs := started_at_ms
          lastSeenAtMs := last_seen_at_ms
          firstSeenAtMs :=
            match row with
            | some r => r.firstSeenAtMs
            | none => event_at_ms
          jobId := pyOr payload.jobId (rowOr (·.jobId))
          jobName := pyOr payload.jobName (rowOr (·.jobName))
          sessionId := pyOr payload.sessionId (rowOr (·.sessionId))
          sessionKey := pyOr payload.sessionKey (rowOr (·.sessionKey))
          summary := pyOr payload.summary
            (pyOr (rowOr (·.summary)) payload.jobName)
          activityType := pyOr payload.activityType
            (pyOr (rowOr (·.activityType)) (some "cron"))
          model := pyOr payload.model (rowOr (·.model))
          thinking := pyOr payload.thinking (rowOr (·.thinking)) }
      { st with active := dictInsert st.active run_key merged }
    else st
  | _, _, _ => st

/-- An emitted active-run row (materialize_runtime_state.py, lines 77-98).
`startedAtLocal` — a local-timezone `strftime` rendering of `startedAtMs`,
display-only and a function of `startedAtMs` — is not embedded. -/
structure Row where
  runKey : String
  jobId : String
  jobName : String
  sessionId : String
  sessionKey : String
  summary : String
  startedAtMs : Int
  lastSeenAtMs : Int
  runningForMs : Int
  activityType : String
  model : Option String
  thinking : Option String
deriving DecidableEq, Repr

/-- `make_runtime_row` (materialize_runtime_state.py, lines 67-99). -/
def make_runtime_row (run_key : String) (state : RowState) (now_ms : Int) :
    Row :=
  let started_at_ms :=
    intOr state.startedAtMs (intOr state.firstSeenAtMs now_ms)
  let last_seen_at_ms := intOr state.lastSeenAtMs started_at_ms
  { runKey := run_key
    jobId := strOr state.jobId run_key
    jobName := strOr state.jobName (strOr state.summary "Running activity")
    sessionId := strOr state.sessionId (strOr state.sessionKey run_key)
    sessionKey := strOr state.sessionKey (strOr state.sessionId run_key)
    summary := strOr state.summary (strOr state.jobName "Running activity")
    startedAtMs := started_at_ms
    lastSeenAtMs := last_seen_at_ms
    runningForMs := max 0 (now_ms - started_at_ms)
    activityType := strOr state.activityType "cron"
    model := state.model.bind fun m =>
      if pyStrip m = "" then none else some (pyStrip m)
    thinking := state.thinking.bind fun t =>
      if pyStrip t = "" then none else some (pyStrip t) }

/-- The active-row output ordering `(startedAtMs, runKey)`
(materialize_runtime_state.py, line 185). -/
def rowKeyLt : StrictLt (Int × String) := prodLt intLt strLt

/-- `reduce_events` (materialize_runtime_state.py, lines 102-186): sort, fold
the absorbing-terminal state machine, expire stale candidates, emit sorted
rows.  The code's guard for a non-integer `lastSeenAtMs` in the stale loop is
unreachable because the merge only stores integers, and is not embedded. -/
def reduce_events (events : List Event) (now_ms stale_ms : Int) :
    List Row × List (String × TermRec) × Nat :=
  let st := (sort_events events).foldl reduceStep ⟨[], []⟩
  let isStale := fun (p : String × RowState) =>
    decide (now_ms - p.2.lastSeenAtMs > stale_ms)
  let expired := st.active.filter isStale
  let remaining := st.active.filter (fun p => ! isStale p)
  let terminals := expired.foldl
    (fun ts p => dictInsert ts p.1 ⟨"stale_expired", now_ms⟩) st.terminals
  let active_rows :=
    pySorted (fun a b => rowKeyLt.le (a.startedAtMs, a.runKey)
        (b.startedAtMs, b.runKey))
      (remaining.map fun p => make_runtime_row p.1 p.2 now_ms)
  (active_rows, terminals, expired.length)

/-! ## Revision counter (materialize_runtime_state.py, lines 20, 41-64, 202-210) -/

/-- Decimal digit character, as produced by Python's `format(n, "08d")`. -/
def digitChar (d : Nat) : Char :=
  if d = 0 then '0' else if d = 1 then '1' else if d = 2 then '2'
  else if d = 3 then '3' else if d = 4 then '4' else if d = 5 then '5'
  else if d = 6 then '6' else if d = 7 then '7' else if d = 8 then '8'
  else '9'

/-- Decimal digits, most significant first, with structural fuel (any fuel
above `n` suffices). -/
def natDigitsAux : Nat → Nat → List Char
  | 0, _ => []
  | fuel + 1, n =>
    if n < 10 then [digitChar n]
    else natDigitsAux fuel (n / 10) ++ [digitChar (n % 10)]

/-- Decimal digits of `n`, most significant first (Python `str(n)` for a
non-negative int). -/
def natDigits (n : Nat) : List Char := natDigitsAux (n + 1) n

/-- Numeric value of a decimal digit string (Python `int(s)` on digits). -/
def digitsToNat (cs : List Char) : Nat :=
  cs.foldl (fun acc c => acc * 10 + (c.toNat - 48)) 0

/-- `REVISION_RE = re.compile(r"^rtv1-(\d+)$")` followed by `int(...)`
(materialize_runtime_state.py, lines 20, 57-64): accept `rtv1-` followed by a
non-empty run of decimal digits. -/
def parseRevisionString (s : String) : Option Nat :=
  match s.data with
  | 'r' :: 't' :: 'v' :: '1' :: '-' :: rest =>
    if rest ≠ [] ∧ rest.all (fun c => c.isDigit) then some (digitsToNat rest)
    else none
  | _ => none

/-- The observable states of the prior snapshot file as read by
`parse_revision_number`: missing, JSON-invalid, JSON but not a dict, or a
dict whose `revision` value is a string (`none` = missing or non-string). -/
inductive PriorSnapshot
  | missing
  | invalidJson
  | nonDict
  | dict (revision : Option String)
deriving DecidableEq, Repr

/-- `parse_revision_number` (materialize_runtime_state.py, lines 41-64). -/
def parse_revision_number (prior : PriorSnapshot) : Nat :=
  match prior with
  | .dict (some s) => (parseRevisionString s).getD 0
  | _ => 0

/-- Zero-padding to width 8: Python `f"rtv1-{revision_num:08d}"`
(materialize_runtime_state.py, line 210). -/
def formatRevision (n : Nat) : String :=
  let ds := natDigits n
  String.mk ('r' :: 't' :: 'v' :: '1' :: '-' ::
    (List.replicate (8 - ds.length) '0' ++ ds))

/-- The revision counter written by `materialize_runtime_state`
(materialize_runtime_state.py, line 202): prior count plus one. -/
def next_revision (prior : PriorSnapshot) : Nat :=
  parse_revision_number prior + 1

/-- The revision string written into the new snapshot. -/
def revision_string (prior : PriorSnapshot) : String :=
  formatRevision (next_revision prior)

/-! ## Snapshot write trace (materialize_runtime_state.py, lines 218-219) -/

/-- File-system operations relevant to snapshot replacement. -/
inductive FsOp
  | write (path content : String)
  | rename (src dst : String)
deriving DecidableEq, Repr

/-- The operations `materialize_runtime_state` performs to replace the
snapshot: a single direct `runtime_state_file.write_text(...)`
(materialize_runtime_state.py, line 219).  No temporary file and no rename
appear in the function. -/
def materialize_write_ops (out_path content : String) : List FsOp :=
  [FsOp.write out_path content]

/-- A direct overwrite is observable in two states (`open(.., "w")` truncates,
then the content is written); a rename is atomic.  `targetTrace` lists the
successively observable contents of `target` while `ops` run, starting from
`prev`. -/
def targetTrace (target : String) (prev : String) : List FsOp → List String
  | [] => []
  | FsOp.write p c :: rest =>
    if p = target then "" :: c :: targetTrace target c rest
    else targetTrace target prev rest
  | FsOp.rename src dst :: rest =>
    if dst = target then prev :: targetTrace target prev rest
    else targetTrace target prev rest

/-- The write-temp-then-rename discipline the spec prescribes: write the
content to a distinct temporary path, then rename it onto the target. -/
def usesWriteTempThenRename (ops : List FsOp) (out_path : String) : Prop :=
  ∃ tmp content, tmp ≠ out_path ∧
    ops = [FsOp.write tmp content, FsOp.rename tmp out_path]

/-! ## `scripts/runtime/collect_runtime_events.py`: timestamp parsing -/

/-- Dynamic value handed to `parse_timestamp_ms`: a Python int, a Python
string, or anything else. -/
inductive TsVal
  | int (n : Int)
  | str (s : String)
  | other
deriving DecidableEq, Repr

/-- The string branch shared verbatim by both `parse_timestamp_ms` copies:
strip, reject empty, rewrite a trailing `Z` to `+00:00`, then call
`datetime.fromisoformat`, defaulting a naive result to UTC and converting to
unix-ms.  `fromisoMs` abstracts that final external call (identical in both
files); everything before it is embedded. -/
def isoBranch (fromisoMs : String → Option Int) (s : String) : Option Int :=
  if pyStrip s = "" then none
  else
    let t := pyStrip s
    let normalized :=
      match t.data.getLast? with
      | some 'Z' => String.mk (t.data.dropLast ++ "+00:00".data)
      | _ => t
    fromisoMs normalized

/-- `parse_timestamp_ms` (collect_runtime_events.py, lines 33-55): ints above
10^10 are unix-ms, positive ints at or below are unix-seconds (scaled by
1000), other ints are rejected; strings go through the ISO branch. -/
def collect_parse_timestamp_ms (fromisoMs : String → Option Int)
    (value : TsVal) : Option Int :=
  match value with
  | .int n =>
    if n > 10000000000 then some n
    else if n > 0 then some (n * 1000)
    else none
  | .str s => isoBranch fromisoMs s
  | .other => none

/-- `parse_timestamp_ms` (status_builder.py, lines 1270-1287): any int is
returned unchanged; strings go through the identical ISO branch. -/
def status_parse_timestamp_ms (fromisoMs : String → Option Int)
    (value : TsVal) : Option Int :=
  match value with
  | .int n => some n
  | .str s => isoBranch fromisoMs s
  | .other => none

/-! ## `scripts/runtime/collect_runtime_events.py`: journal append -/

/-- One line of the journal file as the readers see it: either a JSON object
(an event record) or anything they skip (blank line, JSON-invalid line, or a
non-dict JSON value). -/
inductive JLine
  | junk
  | record (e : Event)
deriving DecidableEq, Repr

/-- One line of `load_existing_event_ids`'s scan
(collect_runtime_events.py, lines 308-320). -/
def loadIdsStep (ids : List String) (line : JLine) : List String :=
  match line with
  | .junk => ids
  | .record e =>
    match e.eventId with
    | some s => if s = "" then ids else if s ∈ ids then ids else ids ++ [s]
    | none => ids

/-- `load_existing_event_ids` (collect_runtime_events.py, lines 303-321):
gather every non-empty string `eventId` into a set.  The Python `set` is
embedded as a duplicate-free list built in first-seen order. -/
def load_existing_event_ids (journal : List JLine) : List String :=
  journal.foldl loadIdsStep []

/-- One iteration of the `append_new_events` loop
(collect_runtime_events.py, lines 343-350): the accumulator is
`(existing_ids, new_events)`. -/
def appendStep (acc : List String × List Event) (e : Event) :
    List String × List Event :=
  match e.eventId with
  | none => acc
  | some s =>
    if s = "" then acc
    else if s ∈ acc.1 then acc
    else (acc.1 ++ [s], acc.2 ++ [e])

/-- `append_new_events` (collect_runtime_events.py, lines 339-360): skip
events without a usable id or whose id is already present, then append the
survivors as one record line each; returns the journal after the append and
the number of appended records. -/
def append_new_events (journal : List JLine) (events : List Event) :
    List JLine × Nat :=
  let res := events.foldl appendStep (load_existing_event_ids journal, [])
  (journal ++ res.2.map JLine.record, res.2.length)

/-! ## `scripts/lib/status_builder.py`: payload sanitization -/

/-- The `runtime` dict inside a dashboard payload, as touched by
`sanitize_payload_for_static_snapshot` (status_builder.py, lines 2042-2064).
`α` stands for the runs carried by `activeRuns` and `ρ` for every key the
function does not touch (copied verbatim by `dict(runtime)`).  On input the
touched fields may hold anything; the claims only constrain the output. -/
structure RuntimeDict (α ρ : Type) where
  status : String
  isIdle : Bool
  activeCount : Int
  activeRuns : List α
  source : String
  snapshotMode : String
  degradedReason : String
  revision : Option String
  rest : ρ
deriving DecidableEq, Repr

/-- A dashboard payload: its `runtime` value (`none` = key missing or value
not a dict) and every other key (`π`), copied verbatim by `dict(payload)`. -/
structure StatusPayload (α ρ π : Type) where
  runtime : Option (RuntimeDict α ρ)
  rest : π
deriving DecidableEq, Repr

/-- `sanitize_payload_for_static_snapshot` (status_builder.py, lines
2042-2064). -/
def sanitize_payload_for_static_snapshot {α ρ π : Type}
    (payload : StatusPayload α ρ π) : StatusPayload α ρ π :=
  match payload.runtime with
  | none => payload
  | some runtime =>
    { payload with
      runtime := some
        { runtime with
          status := "idle"
          isIdle := true
          activeCount := 0
          activeRuns := []
          source := "fallback-static"
          snapshotMode := "fallback-sanitized"
          degradedReason := "Static snapshot cannot carry live runtime rows"
          revision := some (strOr runtime.revision "rtv1-00000000") } }

/-! ## `scripts/lib/runtime_reconciler.py` -/

/-- A raw candidate row fed to the reconciler; fields are guarded or
truthiness-coalesced by the code, so all are `Option`-typed. -/
structure CandRow where
  runKey : Option String
  startedAtMs : Option Int
  lastSeenAtMs : Option Int
  jobName : Option String
  summary : Option String
  sessionId : Option String
  sessionKey : Option String
  jobId : Option String
  activityType : Option String
  model : Option String
  thinking : Option String
deriving DecidableEq, Repr

/-- A normalized candidate (runtime_reconciler.py, lines 33-49): `runKey` a
non-empty string, both timestamps ints with `lastSeenAtMs ≥ startedAtMs`. -/
structure NormRow where
  runKey : String
  startedAtMs : Int
  lastSeenAtMs : Int
  jobName : Option String
  summary : Option String
  sessionId : Option String
  sessionKey : Option String
  jobId : Option String
  activityType : Option String
  model : Option String
  thinking : Option String
deriving DecidableEq, Repr

/-- `_normalize_candidate` (runtime_reconciler.py, lines 33-49). -/
def normalize_candidate (row : CandRow) : Option NormRow :=
  match row.runKey, row.startedAtMs with
  | some run_key, some started_at_ms =>
    if run_key = "" then none
    else
      let last_seen_at_ms := row.lastSeenAtMs.getD started_at_ms
      some
        { runKey := run_key
          startedAtMs := started_at_ms
          lastSeenAtMs := max last_seen_at_ms started_at_ms
          jobName := row.jobName
          summary := row.summary
          sessionId := row.sessionId
          sessionKey := row.sessionKey
          jobId := row.jobId
          activityType := row.activityType
          model := row.model
          thinking := row.thinking }
  | _, _ => none

/-- Python truthiness of a string-or-None field. -/
def truthy (o : Option String) : Bool :=
  match o with
  | some s => s ≠ ""
  | none => false

/-- The field-merge rule of `collect_candidates` (runtime_reconciler.py,
lines 73-75): take the candidate's value only when the merged value is falsy
and the candidate's truthy. -/
def mergeField (cur cand : Option String) : Option String :=
  if truthy cur then cur else if truthy cand then cand else cur

/-- The run-key merge of `collect_candidates` (runtime_reconciler.py,
lines 69-77). -/
def mergeCand (cur cand : NormRow) : NormRow :=
  { cur with
    startedAtMs := min cur.startedAtMs cand.startedAtMs
    lastSeenAtMs := max cur.lastSeenAtMs cand.lastSeenAtMs
    jobName := mergeField cur.jobName cand.jobName
    summary := mergeField cur.summary cand.summary
    sessionId := mergeField cur.sessionId cand.sessionId
    sessionKey := mergeField cur.sessionKey cand.sessionKey
    jobId := mergeField cur.jobId cand.jobId
    activityType := mergeField cur.activityType cand.activityType
    model := mergeField cur.model cand.model
    thinking := mergeField cur.thinking cand.thinking }

/-- `collect_candidates` (runtime_reconciler.py, lines 52-79): de-duplicate
by run key, then sort by `(startedAtMs, runKey)`. -/
def collect_candidates (rows : List CandRow) : List NormRow :=
  let by_run_key := rows.foldl
    (fun m raw =>
      match normalize_candidate raw with
      | none => m
      | some candidate =>
        match dictGet m candidate.runKey with
        | none => dictInsert m candidate.runKey candidate
        | some current =>
          dictInsert m candidate.runKey (mergeCand current candidate))
    []
  pySorted
    (fun a b => rowKeyLt.le (a.startedAtMs, a.runKey) (b.startedAtMs, b.runKey))
    (by_run_key.map (·.2))

/-- The value stored in the reconciler's `terminals` map
(runtime_reconciler.py, lines 103-107). -/
structure ReconTerm where
  runKey : String
  eventType : String
  eventAtMs : Int
deriving DecidableEq, Repr

/-- `collect_terminals` (runtime_reconciler.py, lines 82-109): keep, per run
key, the latest valid terminal event (ties: the last one seen wins). -/
def collect_terminals (events : List Event) : List (String × ReconTerm) :=
  events.foldl
    (fun terminals e =>
      match e.runKey, e.eventAtMs with
      | some run_key, some event_at_ms =>
        if run_key = "" then terminals
        else if ! is_terminal_event_type e.eventType then terminals
        else
          match dictGet terminals run_key with
          | none =>
            dictInsert terminals run_key
              ⟨run_key, e.eventType.getD "", event_at_ms⟩
          | some current =>
            if event_at_ms ≥ current.eventAtMs then
              dictInsert terminals run_key
                ⟨run_key, e.eventType.getD "", event_at_ms⟩
            else terminals
      | _, _ => terminals)
    []

/-- A reconciled active row (runtime_reconciler.py, lines 140-147):
`dict(row)` plus `runningForMs`; the display-only `startedAtLocal` is not
embedded. -/
structure ReconActiveRow where
  row : NormRow
  runningForMs : Int
deriving DecidableEq, Repr

/-- The result dict of `reconcile` (runtime_reconciler.py, lines 151-157). -/
structure ReconcileResult where
  activeRuns : List ReconActiveRow
  activeCount : Nat
  droppedTerminalCount : Nat
  droppedStaleCount : Nat
  terminalCount : Nat
deriving DecidableEq, Repr

/-- One iteration of the `reconcile` row loop
(runtime_reconciler.py, lines 127-147). -/
def reconcileStep (terminals : List (String × ReconTerm)) (now_ms stale_ms : Int)
    (acc : List ReconActiveRow × Nat × Nat) (row : NormRow) :
    List ReconActiveRow × Nat × Nat :=
  let (rows, dropped_terminal, dropped_stale) := acc
  let staleOrKeep :=
    if now_ms - row.lastSeenAtMs > stale_ms then
      (rows, dropped_terminal, dropped_stale + 1)
    else
      (rows ++ [⟨row, max 0 (now_ms - row.startedAtMs)⟩],
        dropped_terminal, dropped_stale)
  match dictGet terminals row.runKey with
  | some terminal =>
    if terminal.eventAtMs ≥ row.startedAtMs then
      (rows, dropped_terminal + 1, dropped_stale)
    else staleOrKeep
  | none => staleOrKeep

/-- `reconcile` (runtime_reconciler.py, lines 112-157). -/
def reconcile (now_ms : Int) (candidates : List CandRow)
    (terminal_events : List Event) (stale_ms : Int) : ReconcileResult :=
  let normalized := collect_candidates candidates
  let terminals := collect_terminals terminal_events
  let res := normalized.foldl (reconcileStep terminals now_ms stale_ms)
    ([], 0, 0)
  let active_rows := pySorted
    (fun a b => rowKeyLt.le (a.row.startedAtMs, a.row.runKey)
      (b.row.startedAtMs, b.row.runKey)) res.1
  { activeRuns := active_rows
    activeCount := active_rows.length
    droppedTerminalCount := res.2.1
    droppedStaleCount := res.2.2
    terminalCount := terminals.length }

/-! ## Supporting lemmas: decimal digits -/

theorem digitChar_toNat (d : Nat) (h : d < 10) :
    (digitChar d).toNat - 48 = d := by
  interval_cases d <;> decide

theorem digitChar_isDigit (d : Nat) (h : d < 10) :
    (digitChar d).isDigit = true := by
  interval_cases d <;> decide

theorem digitsToNat_append_single (xs : List Char) (c : Char) :
    digitsToNat (xs ++ [c]) = digitsToNat xs * 10 + (c.toNat - 48) := by
  simp [digitsToNat, List.foldl_append]

theorem natDigitsAux_spec (fuel : Nat) :
    ∀ n, n < fuel →
      digitsToNat (natDigitsAux fuel n) = n
      ∧ (natDigitsAux fuel n).all (fun c => c.isDigit) = true
      ∧ natDigitsAux fuel n ≠ [] := by
  induction fuel with
  | zero => intro n h; omega
  | succ fuel ih =>
    intro n h
    by_cases h10 : n < 10
    · refine ⟨?_, ?_, ?_⟩
      · simp [natDigitsAux, h10, digitsToNat, digitChar_toNat n h10]
      · simp [natDigitsAux, h10, digitChar_isDigit n h10]
      · simp [natDigitsAux, h10]
    · have hdiv : n / 10 < fuel := by
        have h1 : n / 10 < n := Nat.div_lt_self (by omega) (by omega)
        omega
      obtain ⟨ihv, ihd, ihne⟩ := ih (n / 10) hdiv
      refine ⟨?_, ?_, ?_⟩
      · rw [show natDigitsAux (fuel + 1) n
            = natDigitsAux fuel (n / 10) ++ [digitChar (n % 10)] by
          simp [natDigitsAux, h10]]
        rw [digitsToNat_append_single, ihv,
          digitChar_toNat (n % 10) (Nat.mod_lt n (by omega))]
        omega
      · rw [show natDigitsAux (fuel + 1) n
            = natDigitsAux fuel (n / 10) ++ [digitChar (n % 10)] by
          simp [natDigitsAux, h10]]
        simp only [List.all_append, ihd, Bool.true_and, List.all_cons,
          List.all_nil, Bool.and_true]
        exact digitChar_isDigit (n % 10) (Nat.mod_lt n (by omega))
      · simp [natDigitsAux, h10]

theorem natDigits_spec (n : Nat) :
    digitsToNat (natDigits n) = n
    ∧ (natDigits n).all (fun c => c.isDigit) = true
    ∧ natDigits n ≠ [] :=
  natDigitsAux_spec (n + 1) n (by omega)

theorem digitsToNat_replicate_zero_append (k : Nat) (ds : List Char) :
    digitsToNat (List.replicate k '0' ++ ds) = digitsToNat ds := by
  induction k with
  | zero => simp
  | succ k ih =>
    rw [List.replicate_succ, List.cons_append]
    simpa [digitsToNat] using ih

theorem parseRevisionString_formatRevision (n : Nat) :
    parseRevisionString (formatRevision n) = some n := by
  obtain ⟨hval, hdig, hne⟩ := natDigits_spec n
  have hrest_ne : List.replicate (8 - (natDigits n).length) '0' ++ natDigits n ≠ [] := by
    intro hc
    exact hne (List.append_eq_nil.mp hc).2
  have hrest_dig :
      (List.replicate (8 - (natDigits n).length) '0' ++ natDigits n).all
        (fun c => c.isDigit) = true := by
    simp only [List.all_append, hdig, Bool.and_true]
    rw [List.all_eq_true]
    intro c hc
    rw [List.eq_of_mem_replicate hc]
    decide
  simp only [parseRevisionString, formatRevision]
  rw [if_pos ⟨hrest_ne, by simpa using hrest_dig⟩]
  rw [digitsToNat_replicate_zero_append, hval]

/-! ## C4: revision counter -/

/-- C4.  The revision counter rule of `materialize_runtime_state`: a missing,
unreadable, non-dict, or revision-less prior snapshot, and any prior revision
string the pattern `rtv1-<digits>` rejects, all yield `rtv1-00000001`; the
written revision string always parses back to the written counter, so a
second reduction (whose prior snapshot carries the first run's revision)
writes a strictly larger revision number. -/
theorem revision_counter_correct :
    (revision_string .missing = "rtv1-00000001"
      ∧ revision_string .invalidJson = "rtv1-00000001"
      ∧ revision_string .nonDict = "rtv1-00000001"
      ∧ revision_string (.dict none) = "rtv1-00000001")
    ∧ (∀ s, parseRevisionString s = none →
        revision_string (.dict (some s)) = "rtv1-00000001")
    ∧ (∀ prior, parseRevisionString (revision_string prior)
        = some (next_revision prior))
    ∧ (∀ prior, next_revision prior
        < next_revision (.dict (some (revision_string prior)))) := by
  refine ⟨⟨by decide, by decide, by decide, by decide⟩, ?_, ?_, ?_⟩
  · intro s hs
    simp [revision_string, next_revision, parse_revision_number, hs]
    rfl
  · intro prior
    exact parseRevisionString_formatRevision (next_revision prior)
  · intro prior
    have h := parseRevisionString_formatRevision (next_revision prior)
    simp only [next_revision, parse_revision_number, revision_string] at h ⊢
    rw [h]
    simp only [Option.getD_some]
    omega

/-- Witness for C4 at concrete inputs. -/
theorem revision_counter_correct_witness :
    revision_string (.dict (some "rtv1-x")) = "rtv1-00000001"
    ∧ parseRevisionString (revision_string .missing) = some 1
    ∧ next_revision .missing < next_revision (.dict (some (revision_string .missing))) := by
  refine ⟨revision_counter_correct.2.1 "rtv1-x" (by decide),
    revision_counter_correct.2.2.1 .missing,
    revision_counter_correct.2.2.2 .missing⟩

/-! ## C6: terminal-type normalization -/

/-- C6 counterexample: `normalize_terminal_event_type` itself remaps the
running type `"started"` (and likewise `"heartbeat"`) to `"finished"` — the
running types do not normalize to themselves under this function. -/
theorem normalize_started_counterexample :
    normalize_terminal_event_type (some "started") = "finished"
    ∧ normalize_terminal_event_type (some "heartbeat") = "finished"
    ∧ ¬ normalize_terminal_event_type (some "started") = "started" := by
  decide

/-- C6 (amended).  `normalize_terminal_event_type` maps, case-insensitively,
`ok`/`success`/`succeeded`/`complete`/`completed`/`done` to `finished`,
`timeout`/`timedout` to `timed_out`, `error`/`errored`/`failure` to `failed`,
`canceled` to `cancelled`; it fixes the canonical terminal labels, collapses
every unknown label (and every non-string) to `finished`, and always lands in
the closed terminal set.  The running types `started` and `heartbeat` are
protected from remapping not by this function but by `build_event`, which
applies normalization only when the caller's type is not a running type. -/
theorem normalize_terminal_types_correct :
    (∀ v, normalize_terminal_event_type v ∈ TERMINAL_EVENT_TYPES)
    ∧ (normalize_terminal_event_type (some "ok") = "finished"
      ∧ normalize_terminal_event_type (some " Success ") = "finished"
      ∧ normalize_terminal_event_type (some "SUCCEEDED") = "finished"
      ∧ normalize_terminal_event_type (some "Complete") = "finished"
      ∧ normalize_terminal_event_type (some "completed") = "finished"
      ∧ normalize_terminal_event_type (some "Done") = "finished"
      ∧ normalize_terminal_event_type (some "timeout") = "timed_out"
      ∧ normalize_terminal_event_type (some "TimedOut") = "timed_out"
      ∧ normalize_terminal_event_type (some "Timed-Out") = "timed_out"
      ∧ normalize_terminal_event_type (some "error") = "failed"
      ∧ normalize_terminal_event_type (some "Errored") = "failed"
      ∧ normalize_terminal_event_type (some "FAILURE") = "failed"
      ∧ normalize_terminal_event_type (some "canceled") = "cancelled"
      ∧ normalize_terminal_event_type (some "CANCELED") = "cancelled"
      ∧ normalize_terminal_event_type (some "finished") = "finished"
      ∧ normalize_terminal_event_type (some "failed") = "failed"
      ∧ normalize_terminal_event_type (some "cancelled") = "cancelled"
      ∧ normalize_terminal_event_type (some "timed_out") = "timed_out"
      ∧ normalize_terminal_event_type (some "stale_expired") = "stale_expired"
      ∧ normalize_terminal_event_type (some "wat") = "finished"
      ∧ normalize_terminal_event_type none = "finished")
    ∧ (∀ s, pyCanon s ∉ TERMINAL_EVENT_TYPES →
        pyCanon s ∉ ["ok", "success", "succeeded", "complete", "completed", "done"] →
        pyCanon s ∉ ["timeout", "timedout", "timed_out"] →
        pyCanon s ∉ ["error", "errored", "failure"] →
        pyCanon s ≠ "canceled" →
        normalize_terminal_event_type (some s) = "finished")
    ∧ (∀ (hash : String → String) (run_key event_type : String)
        (event_at_ms : Int) (source source_offset : String)
        (payload : EvPayload),
        event_type ∈ RUNNING_EVENT_TYPES →
        (build_event hash run_key event_type event_at_ms source source_offset
          payload).eventType = some event_type) := by
  refine ⟨?_, by decide, ?_, ?_⟩
  · intro v
    cases v with
    | none => decide
    | some s =>
      simp only [normalize_terminal_event_type]
      by_cases h1 : pyCanon s ∈ TERMINAL_EVENT_TYPES
      · simpa [h1] using h1
      · by_cases h2 : pyCanon s ∈ ["ok", "success", "succeeded", "complete", "completed", "done"]
        · simp only [h1, h2, if_false, if_true]
          decide
        · by_cases h3 : pyCanon s ∈ ["timeout", "timedout", "timed_out"]
          · simp only [h1, h2, h3, if_false, if_true]
            decide
          · by_cases h4 : pyCanon s ∈ ["error", "errored", "failure"]
            · simp only [h1, h2, h3, h4, if_false, if_true]
              decide
            · by_cases h5 : pyCanon s = "canceled"
              · simp only [h1, h2, h3, h4, h5, if_false, if_true]
                decide
              · simp only [h1, h2, h3, h4, h5, if_false]
                decide
  · intro s h1 h2 h3 h4 h5
    simp [normalize_terminal_event_type, h1, h2, h3, h4, h5]
  · intro hash run_key event_type event_at_ms source source_offset payload h
    simp [build_event, h]

/-- Witness for C6 at concrete inputs. -/
theorem normalize_terminal_types_correct_witness :
    normalize_terminal_event_type (some "xyz") = "finished"
    ∧ (build_event (fun _ => "") "k" "started" 0 "s" "o"
        EvPayload.empty).eventType = some "started" := by
  refine ⟨normalize_terminal_types_correct.2.2.1 "xyz"
      (by decide) (by decide) (by decide) (by decide) (by decide),
    normalize_terminal_types_correct.2.2.2 (fun _ => "") "k" "started" 0 "s" "o"
      EvPayload.empty (by decide)⟩

/-! ## C7: timestamp-parsing parity between collector and status builder -/

/-- C7 counterexample: on the integer 5 (a unix-seconds value) the collector's
parser scales to milliseconds while the status builder's returns the integer
unchanged, for any interpretation of the shared ISO branch. -/
theorem parse_timestamp_ms_counterexample :
    collect_parse_timestamp_ms (fun _ => none) (.int 5) = some 5000
    ∧ status_parse_timestamp_ms (fun _ => none) (.int 5) = some 5
    ∧ collect_parse_timestamp_ms (fun _ => none) (.int 5)
      ≠ status_parse_timestamp_ms (fun _ => none) (.int 5) := by
  refine ⟨rfl, rfl, by decide⟩

/-- C7 (amended).  The two `parse_timestamp_ms` copies agree on every
non-integer input (both run the identical strip/`Z`-rewrite/ISO pipeline on
strings and reject everything else) and on every integer above 10^10; they
diverge on the remaining integers: the collector multiplies positive
unix-seconds by 1000 and rejects non-positive integers, while the status
builder returns every integer unchanged. -/
theorem parse_timestamp_ms_agreement (fromisoMs : String → Option Int) :
    (∀ v : TsVal,
      (match v with | .int n => 10000000000 < n | _ => True) →
      collect_parse_timestamp_ms fromisoMs v
        = status_parse_timestamp_ms fromisoMs v)
    ∧ (∀ n : Int, 0 < n → n ≤ 10000000000 →
      collect_parse_timestamp_ms fromisoMs (.int n) = some (n * 1000)
      ∧ status_parse_timestamp_ms fromisoMs (.int n) = some n)
    ∧ (∀ n : Int, n ≤ 0 →
      collect_parse_timestamp_ms fromisoMs (.int n) = none
      ∧ status_parse_timestamp_ms fromisoMs (.int n) = some n) := by
  refine ⟨?_, ?_, ?_⟩
  · intro v hv
    cases v with
    | int n =>
      simp only at hv
      simp [collect_parse_timestamp_ms, status_parse_timestamp_ms, hv]
    | str s => rfl
    | other => rfl
  · intro n h1 h2
    constructor
    · simp only [collect_parse_timestamp_ms]
      rw [if_neg (by omega), if_pos h1]
    · rfl
  · intro n h
    constructor
    · simp only [collect_parse_timestamp_ms]
      rw [if_neg (by omega), if_neg (by omega)]
    · rfl

/-- Witness for C7 at concrete inputs. -/
theorem parse_timestamp_ms_agreement_witness :
    collect_parse_timestamp_ms (fun _ => some 7) (.int 20000000000)
      = status_parse_timestamp_ms (fun _ => some 7) (.int 20000000000)
    ∧ collect_parse_timestamp_ms (fun _ => some 7) (.int 9) = some 9000
    ∧ status_parse_timestamp_ms (fun _ => some 7) (.int (-3)) = some (-3) := by
  refine ⟨(parse_timestamp_ms_agreement (fun _ => some 7)).1
      (.int 20000000000) (by decide),
    ((parse_timestamp_ms_agreement (fun _ => some 7)).2.1 9
      (by decide) (by decide)).1,
    ((parse_timestamp_ms_agreement (fun _ => some 7)).2.2 (-3) (by decide)).2⟩

/-! ## C9: payload sanitization -/

/-- C9 counterexample: when the payload carries no `runtime` dict (here: the
`runtime` key is absent or not a dict), `sanitize_payload_for_static_snapshot`
returns the payload unchanged, so the output has no `runtime.activeRuns` at
all — the claim's "for every input payload" fails. -/
theorem sanitize_counterexample :
    ¬ ∃ rt : RuntimeDict Unit Unit,
      (sanitize_payload_for_static_snapshot
        ({ runtime := none, rest := () } : StatusPayload Unit Unit Unit)).runtime
        = some rt := by
  intro ⟨rt, h⟩
  simp [sanitize_payload_for_static_snapshot] at h

/-- C9 (amended).  For every payload whose `runtime` value is a dict, the
sanitized payload's runtime has `activeRuns = []`, `status = "idle"`,
`snapshotMode = "fallback-sanitized"`, a non-empty degraded reason, and
untouched runtime keys preserved; every payload key other than `runtime` is
unchanged (and also unchanged in the no-runtime-dict branch). -/
theorem sanitize_payload_correct {α ρ π : Type}
    (payload : StatusPayload α ρ π) (rt : RuntimeDict α ρ)
    (h : payload.runtime = some rt) :
    ∃ rt', (sanitize_payload_for_static_snapshot payload).runtime = some rt'
      ∧ rt'.activeRuns = []
      ∧ rt'.status = "idle"
      ∧ rt'.isIdle = true
      ∧ rt'.activeCount = 0
      ∧ rt'.snapshotMode = "fallback-sanitized"
      ∧ rt'.degradedReason ≠ ""
      ∧ rt'.rest = rt.rest
      ∧ (sanitize_payload_for_static_snapshot payload).rest = payload.rest := by
  obtain ⟨runtime, rest⟩ := payload
  simp only at h
  subst h
  refine ⟨_, rfl, rfl, rfl, rfl, rfl, rfl, ?_, rfl, rfl⟩
  show "Static snapshot cannot carry live runtime rows" ≠ ""
  decide

/-- A concrete payload exercising the sanitizer. -/
def sanitizeExamplePayload : StatusPayload Nat Nat Nat :=
  { runtime := some
      { status := "running", isIdle := false, activeCount := 2,
        activeRuns := [1, 2], source := "materialized-ledger",
        snapshotMode := "live", degradedReason := "",
        revision := some "rtv1-00000005", rest := 0 },
    rest := 9 }

/-- Witness for C9 at a concrete payload. -/
theorem sanitize_payload_correct_witness :
    ∃ rt', (sanitize_payload_for_static_snapshot
        sanitizeExamplePayload).runtime = some rt'
      ∧ rt'.activeRuns = []
      ∧ rt'.status = "idle"
      ∧ rt'.isIdle = true
      ∧ rt'.activeCount = 0
      ∧ rt'.snapshotMode = "fallback-sanitized"
      ∧ rt'.degradedReason ≠ ""
      ∧ rt'.rest = 0
      ∧ (sanitize_payload_for_static_snapshot sanitizeExamplePayload).rest = 9 :=
  sanitize_payload_correct sanitizeExamplePayload _ rfl

/-! ## C5: snapshot replacement is a direct write, not temp-then-rename -/

/-- C5 counterexample: the snapshot write of `materialize_runtime_state` is a
single direct write to the output path — it is not of the
write-temp-then-rename shape, and during the write a reader can observe the
truncated intermediate `""`, which is neither the previous nor the new
snapshot content. -/
theorem materialize_write_not_atomic :
    ¬ usesWriteTempThenRename
      (materialize_write_ops "status/runtime-state.json" "{}")
      "status/runtime-state.json"
    ∧ "" ∈ targetTrace "status/runtime-state.json" "old"
        (materialize_write_ops "status/runtime-state.json" "{}")
    ∧ "" ≠ "old" ∧ "" ≠ "{}" := by
  refine ⟨?_, by decide, by decide, by decide⟩
  intro ⟨tmp, content, hne, heq⟩
  simp [materialize_write_ops] at heq

/-- C5 (amended).  `materialize_runtime_state` replaces the snapshot with one
direct `write_text` on the output path and performs no rename; consequently
the observable contents of the snapshot during the write are the truncated
empty file followed by the new content, so a reader concurrent with the write
can see a partial (empty) snapshot and a write that fails after truncation
loses the previous content. -/
theorem materialize_write_direct (out_path content prev : String) :
    materialize_write_ops out_path content = [FsOp.write out_path content]
    ∧ targetTrace out_path prev (materialize_write_ops out_path content)
      = ["", content]
    ∧ (∀ op ∈ materialize_write_ops out_path content,
        ∀ src dst, op ≠ FsOp.rename src dst) := by
  refine ⟨rfl, ?_, ?_⟩
  · simp [materialize_write_ops, targetTrace]
  · intro op hop src dst
    simp only [materialize_write_ops, List.mem_singleton] at hop
    subst hop
    intro hc
    cases hc

/-! ## Supporting lemmas: journal append -/

theorem mem_loadIdsStep (acc : List String) (line : JLine) (s : String) :
    s ∈ loadIdsStep acc line ↔
      s ∈ acc ∨ ∃ e, line = JLine.record e ∧ e.eventId = some s ∧ s ≠ "" := by
  cases line with
  | junk => simp [loadIdsStep]
  | record e =>
    cases hid : e.eventId with
    | none => simp [loadIdsStep, hid]
    | some t =>
      by_cases ht : t = ""
      · subst ht
        simp only [loadIdsStep, hid, if_pos rfl]
        constructor
        · exact Or.inl
        · rintro (h | ⟨e', he', hid', hs⟩)
          · exact h
          · obtain rfl : e' = e := by injection he' with h'; exact h'.symm
            rw [hid] at hid'
            injection hid' with h'
            exact absurd h'.symm hs
      · by_cases hmem : t ∈ acc
        · simp only [loadIdsStep, hid, if_neg ht, if_pos hmem]
          constructor
          · exact Or.inl
          · rintro (h | ⟨e', he', hid', hs⟩)
            · exact h
            · obtain rfl : e' = e := by injection he' with h'; exact h'.symm
              rw [hid] at hid'
              injection hid' with h'
              exact h' ▸ hmem
        · simp only [loadIdsStep, hid, if_neg ht, if_neg hmem, List.mem_append,
            List.mem_singleton]
          constructor
          · rintro (h | rfl)
            · exact Or.inl h
            · exact Or.inr ⟨e, rfl, hid, ht⟩
          · rintro (h | ⟨e', he', hid', hs⟩)
            · exact Or.inl h
            · obtain rfl : e' = e := by injection he' with h'; exact h'.symm
              rw [hid] at hid'
              injection hid' with h'
              exact Or.inr h'.symm

theorem mem_loadIds_foldl (journal : List JLine) :
    ∀ (acc : List String) (s : String),
      s ∈ journal.foldl loadIdsStep acc ↔
        s ∈ acc ∨ ∃ e, JLine.record e ∈ journal ∧ e.eventId = some s ∧ s ≠ "" := by
  induction journal with
  | nil => simp
  | cons line rest ih =>
    intro acc s
    rw [List.foldl_cons, ih, mem_loadIdsStep]
    constructor
    · rintro ((h | ⟨e, he, hid, hs⟩) | ⟨e, he, hid, hs⟩)
      · exact Or.inl h
      · exact Or.inr ⟨e, he ▸ List.mem_cons_self _ _, hid, hs⟩
      · exact Or.inr ⟨e, List.mem_cons_of_mem _ he, hid, hs⟩
    · rintro (h | ⟨e, he, hid, hs⟩)
      · exact Or.inl (Or.inl h)
      · rcases List.mem_cons.mp he with he' | he'
        · exact Or.inl (Or.inr ⟨e, he'.symm, hid, hs⟩)
        · exact Or.inr ⟨e, he', hid, hs⟩

theorem mem_load_existing_event_ids (journal : List JLine) (s : String) :
    s ∈ load_existing_event_ids journal ↔
      ∃ e, JLine.record e ∈ journal ∧ e.eventId = some s ∧ s ≠ "" := by
  rw [load_existing_event_ids, mem_loadIds_foldl]
  simp

theorem appendStep_ids_mono {acc : List String × List Event} {s : String}
    (e : Event) (h : s ∈ acc.1) : s ∈ (appendStep acc e).1 := by
  rcases acc with ⟨ids, new⟩
  cases hid : e.eventId with
  | none => simpa [appendStep, hid] using h
  | some t =>
    by_cases ht : t = ""
    · simpa [appendStep, hid, ht] using h
    · by_cases hmem : t ∈ ids
      · simpa [appendStep, hid, ht, hmem] using h
      · simp only [appendStep, hid]
        rw [if_neg ht, if_neg hmem]
        exact List.mem_append.mpr (Or.inl h)

theorem appendStep_new_mono {acc : List String × List Event} {x : Event}
    (e : Event) (h : x ∈ acc.2) : x ∈ (appendStep acc e).2 := by
  rcases acc with ⟨ids, new⟩
  cases hid : e.eventId with
  | none => simpa [appendStep, hid] using h
  | some t =>
    by_cases ht : t = ""
    · simpa [appendStep, hid, ht] using h
    · by_cases hmem : t ∈ ids
      · simpa [appendStep, hid, ht, hmem] using h
      · simp only [appendStep, hid]
        rw [if_neg ht, if_neg hmem]
        exact List.mem_append.mpr (Or.inl h)

theorem appendFold_ids_mono (events : List Event) :
    ∀ (acc : List String × List Event) (s : String), s ∈ acc.1 →
      s ∈ (events.foldl appendStep acc).1 := by
  induction events with
  | nil => intro acc s h; exact h
  | cons e rest ih =>
    intro acc s h
    exact ih _ s (appendStep_ids_mono e h)

theorem appendFold_new_mono (events : List Event) :
    ∀ (acc : List String × List Event) (x : Event), x ∈ acc.2 →
      x ∈ (events.foldl appendStep acc).2 := by
  induction events with
  | nil => intro acc x h; exact h
  | cons e rest ih =>
    intro acc x h
    exact ih _ x (appendStep_new_mono e h)

theorem appendFold_mem_ids (events : List Event) :
    ∀ (acc : List String × List Event) (e : Event) (s : String),
      e ∈ events → e.eventId = some s → s ≠ "" →
      s ∈ (events.foldl appendStep acc).1 := by
  induction events with
  | nil => intro acc e s h; cases h
  | cons e0 rest ih =>
    intro acc e s hmem hid hs
    rcases List.mem_cons.mp hmem with rfl | hmem'
    · rw [List.foldl_cons]
      apply appendFold_ids_mono
      simp only [appendStep, hid]
      rw [if_neg hs]
      by_cases hin : s ∈ acc.1
      · rw [if_pos hin]
        exact hin
      · rw [if_neg hin]
        exact List.mem_append.mpr (Or.inr (List.mem_singleton.mpr rfl))
    · exact ih _ e s hmem' hid hs

theorem appendFold_ids_from (events : List Event) :
    ∀ (acc : List String × List Event) (s : String),
      s ∈ (events.foldl appendStep acc).1 →
      s ∈ acc.1 ∨ ∃ e ∈ (events.foldl appendStep acc).2,
        e.eventId = some s ∧ s ≠ "" := by
  induction events with
  | nil => intro acc s h; exact Or.inl h
  | cons e0 rest ih =>
    intro acc s h
    rcases ih _ s h with h' | h'
    · rcases acc with ⟨ids, new⟩
      cases hid : e0.eventId with
      | none =>
        simp only [appendStep, hid] at h'
        exact Or.inl h'
      | some t =>
        by_cases ht : t = ""
        · simp only [appendStep, hid, if_pos ht] at h'
          exact Or.inl h'
        · by_cases hmem : t ∈ ids
          · simp only [appendStep, hid, if_neg ht, if_pos hmem] at h'
            exact Or.inl h'
          · simp only [appendStep, hid, if_neg ht, if_neg hmem] at h'
            rcases List.mem_append.mp h' with h'' | h''
            · exact Or.inl h''
            · obtain rfl : s = t := List.mem_singleton.mp h''
              refine Or.inr ⟨e0, ?_, hid, ht⟩
              rw [List.foldl_cons]
              apply appendFold_new_mono
              simp only [appendStep, hid]
              rw [if_neg ht, if_neg hmem]
              exact List.mem_append.mpr (Or.inr (List.mem_singleton.mpr rfl))
    · exact Or.inr h'

theorem appendFold_nochange (events : List Event) :
    ∀ (acc : List String × List Event),
      (∀ e ∈ events, ∀ s, e.eventId = some s → s ≠ "" → s ∈ acc.1) →
      events.foldl appendStep acc = acc := by
  induction events with
  | nil => intro acc _; rfl
  | cons e0 rest ih =>
    intro acc h
    have hstep : appendStep acc e0 = acc := by
      rcases acc with ⟨ids, new⟩
      cases hid : e0.eventId with
      | none => simp [appendStep, hid]
      | some t =>
        by_cases ht : t = ""
        · simp [appendStep, hid, ht]
        · have := h e0 (List.mem_cons_self _ _) t hid ht
          simp [appendStep, hid, ht, this]
    rw [List.foldl_cons, hstep]
    exact ih acc (fun e he => h e (List.mem_cons_of_mem _ he))

/-! ## C3: idempotent collection -/

/-- C3.  `append_new_events` appends zero records when every collected
event's id already occurs in the journal; in particular, running it a second
time over the journal produced by a first run of the same events appends
nothing and leaves the journal unchanged. -/
theorem collector_append_idempotent (journal : List JLine)
    (events : List Event) :
    ((∀ e ∈ events, ∀ s, e.eventId = some s → s ≠ "" →
        s ∈ load_existing_event_ids journal) →
      append_new_events journal events = (journal, 0))
    ∧ append_new_events (append_new_events journal events).1 events
        = ((append_new_events journal events).1, 0) := by
  have nochange : ∀ (j : List JLine),
      (∀ e ∈ events, ∀ s, e.eventId = some s → s ≠ "" →
        s ∈ load_existing_event_ids j) →
      append_new_events j events = (j, 0) := by
    intro j h
    have : events.foldl appendStep (load_existing_event_ids j, [])
        = (load_existing_event_ids j, []) :=
      appendFold_nochange events _ h
    simp [append_new_events, this]
  constructor
  · exact nochange journal
  · apply nochange
    intro e he s hid hs
    rw [mem_load_existing_event_ids]
    have hin : s ∈ (events.foldl appendStep
        (load_existing_event_ids journal, [])).1 :=
      appendFold_mem_ids events _ e s he hid hs
    rcases appendFold_ids_from events _ s hin with h' | ⟨e', he', hid', hs'⟩
    · rcases (mem_load_existing_event_ids journal s).mp h' with ⟨e', he', hid', hs'⟩
      refine ⟨e', ?_, hid', hs'⟩
      simp only [append_new_events, List.mem_append]
      exact Or.inl he'
    · refine ⟨e', ?_, hid', hs'⟩
      simp only [append_new_events, List.mem_append]
      refine Or.inr (List.mem_map_of_mem JLine.record he')

/-- A concrete collected event for the C3 witness. -/
def collectedExampleEvent : Event :=
  { eventId := some "id1"
    runKey := some "k"
    eventType := some "heartbeat"
    eventAtMs := some 5
    source := some "sessions-store"
    sourceOffset := some "o"
    payload := EvPayload.empty }

/-- A concrete journal already containing the collected event. -/
def journalExample : List JLine :=
  [JLine.junk, JLine.record collectedExampleEvent]

/-- Witness for C3 at a concrete journal and event list. -/
theorem collector_append_idempotent_witness :
    append_new_events journalExample [collectedExampleEvent]
      = (journalExample, 0) :=
  (collector_append_idempotent journalExample [collectedExampleEvent]).1
    (by decide)

/-! ## Supporting lemmas: the reducer's absorbing-terminal fold -/

theorem dictGet_isSome_of_mem {V : Type} {m : List (String × V)} {k : String}
    {v : V} (h : (k, v) ∈ m) : (dictGet m k).isSome := by
  induction m with
  | nil => cases h
  | cons p rest ih =>
    rcases p with ⟨kh, vh⟩
    by_cases hp : kh = k
    · simp [dictGet, hp]
    · rcases List.mem_cons.mp h with h' | h'
      · exact absurd (congrArg Prod.fst h').symm hp
      · simpa [dictGet, hp] using ih h'

/-- A journal event that the reducer folds as a terminal for run key `k`:
all three guarded fields are present, the key matches, and the type is in the
terminal set. -/
def isValidTerminalFor (k : String) (e : Event) : Prop :=
  e.runKey = some k ∧ k ≠ "" ∧ e.eventAtMs.isSome
    ∧ is_terminal_event_type e.eventType = true

instance (k : String) (e : Event) : Decidable (isValidTerminalFor k e) := by
  unfold isValidTerminalFor
  infer_instance

theorem reduceStep_terminals_mono (st : RState) (e : Event) (k : String)
    (h : (dictGet st.terminals k).isSome) :
    (dictGet (reduceStep st e).terminals k).isSome := by
  cases hrk : e.runKey with
  | none => simpa [reduceStep, hrk] using h
  | some rk =>
    cases het : e.eventType with
    | none => simpa [reduceStep, hrk, het] using h
    | some et =>
      cases hat : e.eventAtMs with
      | none => simpa [reduceStep, hrk, het, hat] using h
      | some t =>
        simp only [reduceStep, hrk, het, hat]
        by_cases h0 : rk = ""
        · simpa [h0] using h
        · rw [if_neg h0]
          by_cases hterm : (dictGet st.terminals rk).isSome
          · simpa [hterm] using h
          · rw [if_neg hterm]
            by_cases hT : et ∈ TERMINAL_EVENT_TYPES
            · rw [if_pos hT]
              by_cases hk : k = rk
              · subst hk
                simp [dictGet_insert_self]
              · simpa [dictGet_insert_ne _ _ _ _ hk] using h
            · rw [if_neg hT]
              by_cases hR : et ∈ RUNNING_EVENT_TYPES
              · simpa [hR] using h
              · simpa [hR] using h

theorem reduceStep_folds_terminal (st : RState) (e : Event) (k : String)
    (h : isValidTerminalFor k e) :
    (dictGet (reduceStep st e).terminals k).isSome := by
  obtain ⟨hrk, hk0, hat, hT⟩ := h
  cases het : e.eventType with
  | none => rw [het] at hT; simp [is_terminal_event_type] at hT
  | some et =>
    rw [het] at hT
    simp only [is_terminal_event_type, decide_eq_true_eq] at hT
    cases hat' : e.eventAtMs with
    | none => rw [hat'] at hat; simp at hat
    | some t =>
      simp only [reduceStep, hrk, het, hat']
      rw [if_neg hk0]
      by_cases hterm : (dictGet st.terminals k).isSome
      · simpa [hterm] using hterm
      · rw [if_neg hterm, if_pos hT]
        simp [dictGet_insert_self]

/-- The invariant tying the two maps together: a terminal for `k` implies no
active candidate for `k`. -/
def terminalInv (k : String) (st : RState) : Prop :=
  (dictGet st.terminals k).isSome → dictGet st.active k = none

theorem reduceStep_preserves_terminalInv (st : RState) (e : Event) (k : String)
    (h : terminalInv k st) : terminalInv k (reduceStep st e) := by
  cases hrk : e.runKey with
  | none => simpa [reduceStep, hrk] using h
  | some rk =>
    cases het : e.eventType with
    | none => simpa [reduceStep, hrk, het] using h
    | some et =>
      cases hat : e.eventAtMs with
      | none => simpa [reduceStep, hrk, het, hat] using h
      | some t =>
        simp only [reduceStep, hrk, het, hat]
        by_cases h0 : rk = ""
        · simpa [h0] using h
        · rw [if_neg h0]
          by_cases hterm : (dictGet st.terminals rk).isSome
          · simpa [hterm] using h
          · rw [if_neg hterm]
            by_cases hT : et ∈ TERMINAL_EVENT_TYPES
            · rw [if_pos hT]
              intro _
              by_cases hk : k = rk
              · subst hk
                exact dictGet_erase_self _ _
              · rw [dictGet_erase_ne _ _ _ hk]
                refine h ?_
                simpa [dictGet_insert_ne _ _ _ _ hk] using
                  (by assumption : (dictGet
                    (dictInsert st.terminals rk ⟨et, t⟩) k).isSome)
            · rw [if_neg hT]
              by_cases hR : et ∈ RUNNING_EVENT_TYPES
              · rw [if_pos hR]
                intro hsome
                by_cases hk : k = rk
                · subst hk
                  exact absurd hsome hterm
                · rw [dictGet_insert_ne _ _ _ _ hk]
                  exact h hsome
              · simpa [hR] using h

theorem reduceFold_terminal (l : List Event) :
    ∀ (st : RState) (k : String), terminalInv k st →
      ((∃ e ∈ l, isValidTerminalFor k e) ∨ (dictGet st.terminals k).isSome) →
      (dictGet ((l.foldl reduceStep st)).terminals k).isSome
        ∧ terminalInv k (l.foldl reduceStep st) := by
  induction l with
  | nil =>
    intro st k hinv hsrc
    rcases hsrc with ⟨e, he, _⟩ | hsome
    · cases he
    · exact ⟨hsome, hinv⟩
  | cons e0 rest ih =>
    intro st k hinv hsrc
    rw [List.foldl_cons]
    have hinv' : terminalInv k (reduceStep st e0) :=
      reduceStep_preserves_terminalInv st e0 k hinv
    rcases hsrc with ⟨e, he, hv⟩ | hsome
    · rcases List.mem_cons.mp he with rfl | he'
      · exact ih _ k hinv' (Or.inr (reduceStep_folds_terminal st e k hv))
      · exact ih _ k hinv' (Or.inl ⟨e, he', hv⟩)
    · exact ih _ k hinv' (Or.inr (reduceStep_terminals_mono st e0 k hsome))

/-! ## C2: absorbing terminal state -/

/-- C2.  Once the reducer has a terminal recorded for a run key, every event
carrying that run key leaves the state unchanged (it is dropped); and
whenever some event of the journal is folded as a terminal for a run key,
that run key is absent from the emitted active rows. -/
theorem reducer_terminal_absorbing :
    (∀ (st : RState) (e : Event) (k : String),
      (dictGet st.terminals k).isSome → e.runKey = some k →
      reduceStep st e = st)
    ∧ (∀ (events : List Event) (now_ms stale_ms : Int) (k : String),
      (∃ e ∈ events, isValidTerminalFor k e) →
      ∀ row ∈ (reduce_events events now_ms stale_ms).1, row.runKey ≠ k) := by
  constructor
  · intro st e k hsome hrk
    cases het : e.eventType with
    | none => simp [reduceStep, hrk, het]
    | some et =>
      cases hat : e.eventAtMs with
      | none => simp [reduceStep, hrk, het, hat]
      | some t =>
        simp only [reduceStep, hrk, het, hat]
        by_cases h0 : k = ""
        · simp [h0]
        · rw [if_neg h0, if_pos hsome]
  · intro events now_ms stale_ms k hex row hrow
    have hex' : ∃ e ∈ sort_events events, isValidTerminalFor k e := by
      obtain ⟨e, he, hv⟩ := hex
      exact ⟨e, (pySorted_perm _ events).mem_iff.mpr he, hv⟩
    have hinv0 : terminalInv k ⟨[], []⟩ := by
      intro h
      simp [dictGet] at h
    obtain ⟨hsome, hinv⟩ :=
      reduceFold_terminal (sort_events events) ⟨[], []⟩ k hinv0 (Or.inl hex')
    have hnone := hinv hsome
    set st := (sort_events events).foldl reduceStep ⟨[], []⟩ with hst
    intro hk
    subst hk
    simp only [reduce_events] at hrow
    have hrow' := (pySorted_perm _ _).mem_iff.mp hrow
    obtain ⟨p, hp, hpe⟩ := List.mem_map.mp hrow'
    have hkey : p.1 = row.runKey := by
      rw [← hpe]
      rfl
    have hpactive : p ∈ st.active := (List.mem_filter.mp hp).1
    have : (dictGet st.active row.runKey).isSome := by
      rw [← hkey]
      exact dictGet_isSome_of_mem (by simpa using hpactive)
    rw [hnone] at this
    cases this

/-- A concrete terminal event for run key `"k"` at t=50. -/
def terminalExampleEvent : Event :=
  { eventId := some "t1"
    runKey := some "k"
    eventType := some "finished"
    eventAtMs := some 50
    source := some "cron-runs"
    sourceOffset := some "a.jsonl:1"
    payload := EvPayload.empty }

/-- A concrete running event for run key `"k"` at t=100, after the terminal. -/
def startedExampleEvent : Event :=
  { eventId := some "s1"
    runKey := some "k"
    eventType := some "started"
    eventAtMs := some 100
    source := some "subagent-registry"
    sourceOffset := some "subagent:k:started"
    payload := EvPayload.empty }

/-- Witness for C2: with a terminal at t=50 and a later running event at
t=100, run key `"k"` is absent from the active rows. -/
theorem reducer_terminal_absorbing_witness :
    ∀ row ∈ (reduce_events [terminalExampleEvent, startedExampleEvent]
      110 600000).1, row.runKey ≠ "k" :=
  reducer_terminal_absorbing.2 [terminalExampleEvent, startedExampleEvent]
    110 600000 "k" ⟨terminalExampleEvent, by decide, by decide⟩

/-! ## Supporting lemmas: reducer timestamp bookkeeping -/

/-- The start timestamp the merge derives from one event
(`payload.get("startedAtMs")` if an int, else `eventAtMs`). -/
def candStart (e : Event) (t : Int) : Int := e.payload.startedAtMs.getD t

/-- The last-seen timestamp the merge derives from one event. -/
def candSeen (e : Event) (t : Int) : Int := e.payload.lastSeenAtMs.getD t

/-- Per-event hypothesis under which the emitted rows satisfy
`lastSeenAtMs ≥ startedAtMs`: each folded observation derives a positive
start not later than its last-seen value. -/
def WellTimed (e : Event) : Prop :=
  ∀ t, e.eventAtMs = some t → 0 < candStart e t ∧ candStart e t ≤ candSeen e t

/-- All stored candidates have positive, ordered timestamps. -/
def GoodActive (st : RState) : Prop :=
  ∀ p ∈ st.active, 0 < p.2.startedAtMs ∧ p.2.startedAtMs ≤ p.2.lastSeenAtMs

theorem mem_of_mem_dictErase {V : Type} {m : List (String × V)} {k : String}
    {p : String × V} (h : p ∈ dictErase m k) : p ∈ m := by
  induction m with
  | nil => simpa [dictErase] using h
  | cons q rest ih =>
    rcases q with ⟨kh, vh⟩
    by_cases hq : kh = k
    · simp only [dictErase, if_pos hq] at h
      exact List.mem_cons_of_mem _ (ih h)
    · simp only [dictErase, if_neg hq] at h
      rcases List.mem_cons.mp h with h' | h'
      · exact h' ▸ List.mem_cons_self _ _
      · exact List.mem_cons_of_mem _ (ih h')

theorem reduceStep_preserves_goodActive (st : RState) (e : Event)
    (hg : GoodActive st) (he : WellTimed e) : GoodActive (reduceStep st e) := by
  cases hrk : e.runKey with
  | none => simpa [reduceStep, hrk] using hg
  | some rk =>
    cases het : e.eventType with
    | none => simpa [reduceStep, hrk, het] using hg
    | some et =>
      cases hat : e.eventAtMs with
      | none => simpa [reduceStep, hrk, het, hat] using hg
      | some t =>
        obtain ⟨hpos, hord⟩ := he t hat
        simp only [reduceStep, hrk, het, hat]
        by_cases h0 : rk = ""
        · simpa [h0] using hg
        · rw [if_neg h0]
          by_cases hterm : (dictGet st.terminals rk).isSome
          · simpa [hterm] using hg
          · rw [if_neg hterm]
            by_cases hT : et ∈ TERMINAL_EVENT_TYPES
            · rw [if_pos hT]
              intro p hp
              exact hg p (mem_of_mem_dictErase hp)
            · rw [if_neg hT]
              by_cases hR : et ∈ RUNNING_EVENT_TYPES
              · rw [if_pos hR]
                intro p hp
                rcases mem_dictInsert hp with rfl | hp'
                · cases hrow : dictGet st.active rk with
                  | none =>
                    simp only [hrow, candStart, candSeen] at hpos hord ⊢
                    exact ⟨hpos, hord⟩
                  | some r =>
                    obtain ⟨hr1, hr2⟩ := hg (rk, r) (dictGet_mem hrow)
                    simp only [hrow, candStart, candSeen] at hpos hord ⊢
                    constructor
                    · exact lt_min hr1 hpos
                    · exact le_trans (min_le_left _ _)
                        (le_trans hr2 (le_max_left _ _))
                · exact hg p hp'
              · simpa [hR] using hg

theorem reduceFold_goodActive (l : List Event) :
    ∀ (st : RState), GoodActive st → (∀ e ∈ l, WellTimed e) →
      GoodActive (l.foldl reduceStep st) := by
  induction l with
  | nil => intro st hg _; exact hg
  | cons e0 rest ih =>
    intro st hg h
    rw [List.foldl_cons]
    exact ih _ (reduceStep_preserves_goodActive st e0 hg
        (h e0 (List.mem_cons_self _ _)))
      (fun e he => h e (List.mem_cons_of_mem _ he))

/-! ## C8: active-row timestamp invariant -/

/-- A journal event whose payload carries `lastSeenAtMs` strictly before
`startedAtMs`; the reducer stores the pair unchanged. -/
def skewedExampleEvent : Event :=
  { eventId := some "s1"
    runKey := some "k"
    eventType := some "started"
    eventAtMs := some 60
    source := some "subagent-registry"
    sourceOffset := some "subagent:k:started"
    payload := { EvPayload.empty with
      startedAtMs := some 100, lastSeenAtMs := some 50 } }

/-- C8 counterexample: a single journal event whose payload says
`startedAtMs = 100`, `lastSeenAtMs = 50` yields an active row with
`lastSeenAtMs < startedAtMs` — the invariant does not hold for arbitrary
journals. -/
theorem row_timestamp_counterexample :
    ∃ row ∈ (reduce_events [skewedExampleEvent] 60 1000).1,
      row.lastSeenAtMs < row.startedAtMs := by
  decide

/-- C8 (amended).  Across successive folded observations of one run key the
stored `startedAtMs` never increases and the stored `lastSeenAtMs` never
decreases (they are folded with `min` and `max`); and whenever every folded
event derives a positive start not later than its last-seen value — as the
collector-produced payloads do when producer clocks are sane — every emitted
active row satisfies `lastSeenAtMs ≥ startedAtMs`. -/
theorem reducer_row_timestamps :
    (∀ (st : RState) (e : Event) (k : String) (r r' : RowState),
      dictGet st.active k = some r →
      dictGet (reduceStep st e).active k = some r' →
      r'.startedAtMs ≤ r.startedAtMs ∧ r.lastSeenAtMs ≤ r'.lastSeenAtMs)
    ∧ (∀ (events : List Event) (now_ms stale_ms : Int),
      (∀ e ∈ events, WellTimed e) →
      ∀ row ∈ (reduce_events events now_ms stale_ms).1,
        row.startedAtMs ≤ row.lastSeenAtMs) := by
  constructor
  · intro st e k r r' hr hr'
    cases hrk : e.runKey with
    | none =>
      rw [show (reduceStep st e).active = st.active by simp [reduceStep, hrk],
        hr] at hr'
      obtain rfl : r = r' := Option.some_inj.mp hr'
      exact ⟨le_refl _, le_refl _⟩
    | some rk =>
      cases het : e.eventType with
      | none =>
        rw [show (reduceStep st e).active = st.active by
          simp [reduceStep, hrk, het], hr] at hr'
        obtain rfl : r = r' := Option.some_inj.mp hr'
        exact ⟨le_refl _, le_refl _⟩
      | some et =>
        cases hat : e.eventAtMs with
        | none =>
          rw [show (reduceStep st e).active = st.active by
            simp [reduceStep, hrk, het, hat], hr] at hr'
          obtain rfl : r = r' := Option.some_inj.mp hr'
          exact ⟨le_refl _, le_refl _⟩
        | some t =>
          simp only [reduceStep, hrk, het, hat] at hr'
          by_cases h0 : rk = ""
          · rw [if_pos h0] at hr'
            rw [hr] at hr'
            obtain rfl : r = r' := Option.some_inj.mp hr'
            exact ⟨le_refl _, le_refl _⟩
          · rw [if_neg h0] at hr'
            by_cases hterm : (dictGet st.terminals rk).isSome
            · rw [if_pos hterm] at hr'
              rw [hr] at hr'
              obtain rfl : r = r' := Option.some_inj.mp hr'
              exact ⟨le_refl _, le_refl _⟩
            · rw [if_neg hterm] at hr'
              by_cases hT : et ∈ TERMINAL_EVENT_TYPES
              · rw [if_pos hT] at hr'
                by_cases hk : k = rk
                · subst hk
                  rw [dictGet_erase_self] at hr'
                  cases hr'
                · rw [dictGet_erase_ne _ _ _ hk, hr] at hr'
                  obtain rfl : r = r' := Option.some_inj.mp hr'
                  exact ⟨le_refl _, le_refl _⟩
              · rw [if_neg hT] at hr'
                by_cases hR : et ∈ RUNNING_EVENT_TYPES
                · rw [if_pos hR] at hr'
                  by_cases hk : k = rk
                  · subst hk
                    rw [dictGet_insert_self] at hr'
                    rw [hr] at hr'
                    obtain rfl := Option.some_inj.mp hr'
                    constructor
                    · exact min_le_left _ _
                    · exact le_max_left _ _
                  · rw [dictGet_insert_ne _ _ _ _ hk, hr] at hr'
                    obtain rfl : r = r' := Option.some_inj.mp hr'
                    exact ⟨le_refl _, le_refl _⟩
                · rw [if_neg hR] at hr'
                  rw [hr] at hr'
                  obtain rfl : r = r' := Option.some_inj.mp hr'
                  exact ⟨le_refl _, le_refl _⟩
  · intro events now_ms stale_ms hwt row hrow
    have hwt' : ∀ e ∈ sort_events events, WellTimed e := fun e he =>
      hwt e ((pySorted_perm _ events).mem_iff.mp he)
    have hgood : GoodActive
        ((sort_events events).foldl reduceStep ⟨[], []⟩) :=
      reduceFold_goodActive (sort_events events) ⟨[], []⟩
        (fun p hp => by cases hp) hwt'
    simp only [reduce_events] at hrow
    have hrow' := (pySorted_perm _ _).mem_iff.mp hrow
    obtain ⟨p, hp, hpe⟩ := List.mem_map.mp hrow'
    obtain ⟨hpos, hord⟩ := hgood p (List.mem_of_mem_filter hp)
    subst hpe
    simp only [make_runtime_row]
    have h1 : intOr p.2.startedAtMs (intOr p.2.firstSeenAtMs now_ms)
        = p.2.startedAtMs := by
      simp only [intOr]
      rw [if_neg (by omega)]
    have h2 : intOr p.2.lastSeenAtMs p.2.startedAtMs = p.2.lastSeenAtMs := by
      simp only [intOr]
      rw [if_neg (by omega)]
    simp only [h1, h2]
    exact hord

/-- Witness for C8: a well-timed heartbeat journal yields ordered rows. -/
theorem reducer_row_timestamps_witness :
    ∀ row ∈ (reduce_events
      [{ eventId := some "h1", runKey := some "k",
         eventType := some "heartbeat", eventAtMs := some 30,
         source := some "sessions-store", sourceOffset := some "o",
         payload := EvPayload.empty }] 40 600000).1,
      row.startedAtMs ≤ row.lastSeenAtMs := by
  apply reducer_row_timestamps.2 _ 40 600000
  intro e he t ht
  rw [List.mem_singleton.mp he] at ht ⊢
  obtain rfl : (30 : Int) = t := by injection ht
  decide

/-! ## Supporting lemmas: the reconciler row loop -/

theorem reconcileStep_rows_mono (terminals : List (String × ReconTerm))
    (now_ms stale_ms : Int) (acc : List ReconActiveRow × Nat × Nat)
    (row : NormRow) {a : ReconActiveRow} (h : a ∈ acc.1) :
    a ∈ (reconcileStep terminals now_ms stale_ms acc row).1 := by
  rcases acc with ⟨rows, dt, ds⟩
  simp only [reconcileStep]
  cases hterm : dictGet terminals row.runKey with
  | some terminal =>
    dsimp only
    by_cases hge : terminal.eventAtMs ≥ row.startedAtMs
    · simpa [hge] using h
    · rw [if_neg hge]
      by_cases hstale : now_ms - row.lastSeenAtMs > stale_ms
      · simpa [hstale] using h
      · rw [if_neg hstale]
        exact List.mem_append.mpr (Or.inl h)
  | none =>
    dsimp only
    by_cases hstale : now_ms - row.lastSeenAtMs > stale_ms
    · simpa [hstale] using h
    · rw [if_neg hstale]
      exact List.mem_append.mpr (Or.inl h)

theorem reconcileFold_rows_mono (l : List NormRow)
    (terminals : List (String × ReconTerm)) (now_ms stale_ms : Int) :
    ∀ (acc : List ReconActiveRow × Nat × Nat) (a : ReconActiveRow),
      a ∈ acc.1 → a ∈ (l.foldl (reconcileStep terminals now_ms stale_ms) acc).1 := by
  induction l with
  | nil => intro acc a h; exact h
  | cons r rest ih =>
    intro acc a h
    exact ih _ a (reconcileStep_rows_mono terminals now_ms stale_ms acc r h)

theorem reconcileFold_keeps (l : List NormRow)
    (terminals : List (String × ReconTerm)) (now_ms stale_ms : Int) :
    ∀ (acc : List ReconActiveRow × Nat × Nat) (r : NormRow), r ∈ l →
      (∀ term, dictGet terminals r.runKey = some term →
        term.eventAtMs < r.startedAtMs) →
      now_ms - r.lastSeenAtMs ≤ stale_ms →
      ∃ a ∈ (l.foldl (reconcileStep terminals now_ms stale_ms) acc).1,
        a.row.runKey = r.runKey := by
  induction l with
  | nil => intro acc r h; cases h
  | cons r0 rest ih =>
    intro acc r hmem hterm hstale
    rcases List.mem_cons.mp hmem with rfl | hmem'
    · rw [List.foldl_cons]
      refine ⟨⟨r, max 0 (now_ms - r.startedAtMs)⟩, ?_, rfl⟩
      apply reconcileFold_rows_mono
      rcases acc with ⟨rows, dt, ds⟩
      simp only [reconcileStep]
      cases hd : dictGet terminals r.runKey with
      | some terminal =>
        dsimp only
        have : ¬ terminal.eventAtMs ≥ r.startedAtMs := by
          have := hterm terminal hd
          omega
        rw [if_neg this, if_neg (by omega)]
        exact List.mem_append.mpr (Or.inr (List.mem_singleton.mpr rfl))
      | none =>
        dsimp only
        rw [if_neg (by omega)]
        exact List.mem_append.mpr (Or.inr (List.mem_singleton.mpr rfl))
    · exact ih _ r hmem' hterm hstale

/-! ## C10: the live reconciler's terminal is not absorbing -/

/-- A reconciler candidate for run key `"k"` started at t=100. -/
def reconCandExample : CandRow :=
  { runKey := some "k"
    startedAtMs := some 100
    lastSeenAtMs := some 100
    jobName := none
    summary := none
    sessionId := none
    sessionKey := none
    jobId := none
    activityType := none
    model := none
    thinking := none }

/-- A terminal event for `"k"` at t=50, before the candidate's start. -/
def reconTermExampleEvent : Event :=
  { eventId := some "rt1"
    runKey := some "k"
    eventType := some "finished"
    eventAtMs := some 50
    source := some "cron-runs"
    sourceOffset := some "c.jsonl:1"
    payload := EvPayload.empty }

/-- The matching running event for `"k"` at t=100, for the journal-reducer
contrast. -/
def reconStartExampleEvent : Event :=
  { eventId := some "rs1"
    runKey := some "k"
    eventType := some "started"
    eventAtMs := some 100
    source := some "subagent-registry"
    sourceOffset := some "subagent:k:started"
    payload := EvPayload.empty }

/-- C10.  In the live reconciler a terminal is not absorbing: any normalized
candidate whose run key's latest terminal is strictly older than the
candidate's `startedAtMs` and whose `lastSeenAtMs` is within the stale window
is still reported in `activeRuns`; concretely, a candidate restarted at t=100
after a terminal at t=50 stays active, while the journal reducer fed the
corresponding events drops the run key for good. -/
theorem reconcile_terminal_not_absorbing :
    (∀ (now_ms stale_ms : Int) (candidates : List CandRow)
      (terminal_events : List Event) (r : NormRow),
      r ∈ collect_candidates candidates →
      (∀ term, dictGet (collect_terminals terminal_events) r.runKey = some term →
        term.eventAtMs < r.startedAtMs) →
      now_ms - r.lastSeenAtMs ≤ stale_ms →
      ∃ a ∈ (reconcile now_ms candidates terminal_events stale_ms).activeRuns,
        a.row.runKey = r.runKey)
    ∧ (reconcile 110 [reconCandExample] [reconTermExampleEvent]
        600000).activeRuns.map (fun a => a.row.runKey) = ["k"]
    ∧ (reduce_events [reconStartExampleEvent, reconTermExampleEvent]
        110 600000).1 = [] := by
  refine ⟨?_, by decide, by decide⟩
  intro now_ms stale_ms candidates terminal_events r hmem hterm hstale
  obtain ⟨a, ha, hk⟩ := reconcileFold_keeps (collect_candidates candidates)
    (collect_terminals terminal_events) now_ms stale_ms ([], 0, 0) r hmem
    hterm hstale
  exact ⟨a, (pySorted_perm _ _).mem_iff.mpr ha, hk⟩

/-- The normalized form of `reconCandExample`. -/
def reconNormExample : NormRow :=
  { runKey := "k"
    startedAtMs := 100
    lastSeenAtMs := 100
    jobName := none
    summary := none
    sessionId := none
    sessionKey := none
    jobId := none
    activityType := none
    model := none
    thinking := none }

/-- Witness for C10 at the concrete candidate and terminal. -/
theorem reconcile_terminal_not_absorbing_witness :
    ∃ a ∈ (reconcile 110 [reconCandExample] [reconTermExampleEvent]
      600000).activeRuns, a.row.runKey = "k" := by
  apply reconcile_terminal_not_absorbing.1 110 600000 [reconCandExample]
    [reconTermExampleEvent] reconNormExample (by decide)
  · intro term h
    have h' : (⟨"k", "finished", 50⟩ : ReconTerm) = term := by
      injection h
    rw [← h']
    decide
  · decide

/-! ## C1: permutation invariance of the reducer -/

/-- C1.  For journal events — events whose (string-coerced) event ids are
pairwise distinct, as the journal's id-deduplicated append guarantees —
`reduce_events` returns identical active rows, terminals, and dropped-stale
count on any permutation of the event list, for any fixed `now` and
`staleMs`: the canonical sort key ends in the event id, so distinct ids make
the sorted replay order unique. -/
theorem reduce_events_perm_invariant (es₁ es₂ : List Event)
    (now_ms stale_ms : Int) (hperm : List.Perm es₁ es₂)
    (hids : (es₁.map fun e => e.eventId.getD "").Nodup) :
    reduce_events es₁ now_ms stale_ms = reduce_events es₂ now_ms stale_ms := by
  have hkeys : (es₁.map event_sort_key).Nodup := by
    apply List.Nodup.of_map (fun k : Int × Nat × String × String => k.2.2.2)
    rw [List.map_map]
    exact hids
  have hsort : sort_events es₁ = sort_events es₂ :=
    pySorted_eq_of_perm eventKeyLt event_sort_key hperm hkeys
  simp only [reduce_events, sort_events] at hsort ⊢
  rw [hsort]

/-- Two distinct-id events used by the C1 witness. -/
def permExampleEventA : Event :=
  { eventId := some "a1"
    runKey := some "k1"
    eventType := some "started"
    eventAtMs := some 100
    source := some "subagent-registry"
    sourceOffset := some "subagent:k1:started"
    payload := EvPayload.empty }

/-- Second event for the C1 witness, same timestamp, different id. -/
def permExampleEventB : Event :=
  { eventId := some "b1"
    runKey := some "k2"
    eventType := some "heartbeat"
    eventAtMs := some 100
    source := some "sessions-store"
    sourceOffset := some "sessions:k2"
    payload := EvPayload.empty }

/-- Witness for C1: both orders of a two-event journal reduce identically. -/
theorem reduce_events_perm_invariant_witness :
    reduce_events [permExampleEventA, permExampleEventB] 200 600000
      = reduce_events [permExampleEventB, permExampleEventA] 200 600000 :=
  reduce_events_perm_invariant _ _ 200 600000
    (List.Perm.swap permExampleEventB permExampleEventA [])
    (by decide)
